import Mathlib

/-!
# F1Live — verification of the replay/standings derivation core

Shallow embedding of the two pure computation components of the F1Live
dashboard:

* the standings aggregator `getChampionshipStandings`
  (service class, season points/wins/podiums aggregation and ranking), and
* the replay timeline builder `processRaceData` together with
  `interpolateDriverPositions` (`src/components/RaceReplay.tsx`).

Modelling conventions:

* ISO-8601 date strings are always consumed through
  `new Date(s).getTime()` in the source, so dates are embedded directly as
  epoch milliseconds (`Int`).
* JavaScript floating-point arithmetic (lap durations, progress fractions,
  interpolation) is embedded over `ℚ`.
* JavaScript truthiness tests (`x || fallback`, `!existing`) are embedded
  explicitly: `undefined`/`null` ↦ `Option.none`, and the falsy values
  `0` and `""` fall through to the fallback, exactly as in the source.
* A JavaScript `Map` is embedded as an association list in insertion
  order: `set` on an existing key updates the entry in place, `set` on a
  fresh key appends, matching `Map` iteration order.
* `Array.prototype.sort` (stable in JavaScript) is embedded as the
  stable sort `stableSort` with the comparator translated to a
  `Bool`-valued "comes-no-later-than" relation.
* The service methods fetch their inputs over HTTP; the fetch layer is
  embedded by passing the already-fetched record collections (or, for the
  per-session try/catch in the standings aggregator, an `Except` per
  session) as arguments to the pure parts.
-/

/-! ## JavaScript primitives -/

/-- JS `a || b` for numbers held in an `Option`: `undefined`/`null` and the
falsy number `0` fall through to the fallback. -/
def jsOrNat (o : Option Nat) (fallback : Nat) : Nat :=
  match o with
  | some v => if v = 0 then fallback else v
  | none => fallback

/-- JS `a || b` for strings: `undefined`/`null` and the falsy `""` fall
through to the fallback. -/
def jsOrStr (o : Option String) (fallback : String) : String :=
  match o with
  | some s => if s = "" then fallback else s
  | none => fallback

/-- JS `a || null` for a possibly-missing number: `0` is falsy and collapses
to `null`. -/
def jsOrNull (o : Option ℚ) : Option ℚ :=
  match o with
  | some v => if v = 0 then none else some v
  | none => none

/-- `Math.max` on rationals (spelled out so that it computes by kernel
reduction, unlike the lattice `max`). -/
def qmax (a b : ℚ) : ℚ := if a ≤ b then b else a

/-- `Math.min` on rationals. -/
def qmin (a b : ℚ) : ℚ := if a ≤ b then a else b

/-- `Math.abs` on rationals. -/
def qabs (a : ℚ) : ℚ := if a < 0 then -a else a

/-- JS `Map.get`: the value at a key of an insertion-ordered association
list. -/
def mapGet {K V : Type} [DecidableEq K] (m : List (K × V)) (k : K) : Option V :=
  (m.find? (fun e => e.1 = k)).map (·.2)

/-- JS `Map.set`: update in place when the key is present, append
otherwise (preserving insertion order). -/
def mapSet {K V : Type} [DecidableEq K] (m : List (K × V)) (k : K) (v : V) :
    List (K × V) :=
  if (m.find? (fun e => e.1 = k)).isSome then
    m.map (fun e => if e.1 = k then (k, v) else e)
  else
    m ++ [(k, v)]

/-- JS `Set.add` on an insertion-ordered set of numbers. -/
def setAdd (l : List Nat) (x : Nat) : List Nat :=
  if x ∈ l then l else l ++ [x]


/-! ## Stable sort

`Array.prototype.sort` is stable, and a stable sort's output is uniquely
determined by the comparator preorder and the input order, so any stable
sort embeds it faithfully; insertion sort is used because it is
structurally recursive (hence computable on concrete inputs by the
kernel, unlike the well-founded `List.mergeSort`). -/

/-- Insert `x` before the first element it sorts no later than. -/
def sinsert {α : Type} (le : α → α → Bool) (x : α) : List α → List α
  | [] => [x]
  | y :: ys => if le x y then x :: y :: ys else y :: sinsert le x ys

/-- Stable insertion sort with a `Bool` comparator. -/
def stableSort {α : Type} (le : α → α → Bool) : List α → List α
  | [] => []
  | x :: xs => sinsert le x (stableSort le xs)

/-- Inserting permutes the element onto the list. -/
theorem sinsert_perm {α : Type} (le : α → α → Bool) (x : α) :
    ∀ l : List α, (sinsert le x l).Perm (x :: l)
  | [] => List.Perm.refl _
  | y :: ys => by
    unfold sinsert
    by_cases h : le x y
    · rw [if_pos h]
    · rw [if_neg h]
      exact ((sinsert_perm le x ys).cons y).trans (List.Perm.swap x y ys)

/-- The sort permutes its input. -/
theorem stableSort_perm {α : Type} (le : α → α → Bool) :
    ∀ l : List α, (stableSort le l).Perm l
  | [] => List.Perm.refl _
  | x :: xs =>
    ((sinsert_perm le x (stableSort le xs)).trans
      ((stableSort_perm le xs).cons x))

/-- Membership is preserved by the sort. -/
theorem mem_stableSort {α : Type} (le : α → α → Bool) (a : α) (l : List α) :
    a ∈ stableSort le l ↔ a ∈ l :=
  (stableSort_perm le l).mem_iff

/-- Inserting into a comparator-sorted list keeps it sorted, for a
transitive and total comparator. -/
theorem sinsert_pairwise {α : Type} (le : α → α → Bool)
    (htrans : ∀ a b c : α, le a b = true → le b c = true → le a c = true)
    (htotal : ∀ a b : α, (le a b || le b a) = true) (x : α) :
    ∀ l : List α, l.Pairwise (fun a b => le a b = true) →
      (sinsert le x l).Pairwise (fun a b => le a b = true)
  | [], _ => by simp [sinsert]
  | y :: ys, h => by
    rw [List.pairwise_cons] at h
    unfold sinsert
    by_cases hxy : le x y
    · rw [if_pos hxy, List.pairwise_cons]
      refine ⟨?_, List.pairwise_cons.mpr h⟩
      intro z hz
      rcases List.mem_cons.mp hz with rfl | hz2
      · exact hxy
      · exact htrans x y z hxy (h.1 z hz2)
    · rw [if_neg hxy, List.pairwise_cons]
      have hyx : le y x = true := by
        have htot := htotal x y
        rw [Bool.or_eq_true] at htot
        rcases htot with h2 | h2
        · exact absurd h2 hxy
        · exact h2
      refine ⟨?_, sinsert_pairwise le htrans htotal x ys h.2⟩
      intro z hz
      rcases List.mem_cons.mp ((sinsert_perm le x ys).mem_iff.mp hz) with
        rfl | hz3
      · exact hyx
      · exact h.1 z hz3

/-- The sort sorts, for a transitive and total comparator. -/
theorem stableSort_pairwise {α : Type} (le : α → α → Bool)
    (htrans : ∀ a b c : α, le a b = true → le b c = true → le a c = true)
    (htotal : ∀ a b : α, (le a b || le b a) = true) :
    ∀ l : List α, (stableSort le l).Pairwise (fun a b => le a b = true)
  | [] => List.Pairwise.nil
  | x :: xs =>
    sinsert_pairwise le htrans htotal x (stableSort le xs)
      (stableSort_pairwise le htrans htotal xs)

/-- A list is a sublist of itself with an extra element inserted. -/
theorem self_sublist_sinsert {α : Type} (le : α → α → Bool) (x : α) :
    ∀ l : List α, l.Sublist (sinsert le x l)
  | [] => by simp [sinsert]
  | y :: ys => by
    unfold sinsert
    by_cases hxy : le x y
    · rw [if_pos hxy]
      exact List.sublist_cons_self x (y :: ys)
    · rw [if_neg hxy]
      exact (self_sublist_sinsert le x ys).cons₂ y

/-- A sublist survives the insertion of an element. -/
theorem sublist_sinsert {α : Type} (le : α → α → Bool) (x : α)
    (l c : List α) (h : c.Sublist l) : c.Sublist (sinsert le x l) :=
  h.trans (self_sublist_sinsert le x l)

/-- Inserting `a` lands it before any element `b` it sorts no later
than. -/
theorem pair_sublist_sinsert {α : Type} (le : α → α → Bool) (a b : α)
    (hle : le a b = true) :
    ∀ l : List α, b ∈ l → [a, b].Sublist (sinsert le a l)
  | [], hb => absurd hb (List.not_mem_nil b)
  | y :: ys, hb => by
    unfold sinsert
    by_cases hay : le a y
    · rw [if_pos hay]
      exact (List.singleton_sublist.mpr hb).cons₂ a
    · rw [if_neg hay]
      rcases List.mem_cons.mp hb with rfl | hb2
      · exact absurd hle hay
      · exact (pair_sublist_sinsert le a b hle ys hb2).cons y

/-- Pair stability: two elements already in comparator order keep their
relative order through the sort. -/
theorem pair_sublist_stableSort {α : Type} (le : α → α → Bool) (a b : α)
    (hle : le a b = true) (l : List α) (h : [a, b].Sublist l) :
    [a, b].Sublist (stableSort le l) := by
  induction l with
  | nil => exact absurd h (by simp)
  | cons x xs ih =>
    cases h with
    | cons _ h2 =>
      exact sublist_sinsert le x _ _ (ih h2)
    | cons₂ _ h2 =>
      exact pair_sublist_sinsert le a b hle _
        ((mem_stableSort le b xs).mpr (List.singleton_sublist.mp h2))

/-! ## Raw data model (`src/types/f1.ts`) -/

/-- A driver record of one session. -/
structure Driver where
  driver_number : Nat
  name_acronym : String
  full_name : String
  team_name : String
  team_colour : String
deriving DecidableEq, Repr, Inhabited

/-- A point sample of the running order (`date` in epoch milliseconds). -/
structure Position where
  driver_number : Nat
  position : Nat
  date : Int
deriving DecidableEq, Repr, Inhabited

/-! ## Standings aggregator (`getChampionshipStandings`) -/

/-- The fixed F1 points table for positions 1–10. -/
def pointsSystem : List Nat := [25, 18, 15, 12, 10, 8, 6, 4, 2, 1]

/-- A JavaScript number as the standings arithmetic produces it: either
an actual (natural) number or the poisoned value that arises when
`pointsSystem[position - 1]` is read at `position = 0` — that array read
yields `undefined`, and `points += undefined` is `NaN`.  `undefined` and
`NaN` behave identically in every use the source makes of points
(`+`, `!==`, `-`), so one constructor covers both. -/
inductive JsNum where
  | nan : JsNum
  | num : Nat → JsNum
deriving DecidableEq, Repr, Inhabited

/-- JS `+` on such numbers: `NaN` (or `undefined`) poisons the sum. -/
def JsNum.add : JsNum → JsNum → JsNum
  | JsNum.num a, JsNum.num b => JsNum.num (a + b)
  | _, _ => JsNum.nan

/-- JS `x || 0`: `NaN` is falsy and collapses to `0` (a plain `0` also
yields `0`, its own value). -/
def JsNum.orZero : JsNum → JsNum
  | JsNum.nan => JsNum.num 0
  | JsNum.num v => JsNum.num v

/-- One step of the final-classification scan.  Source:
`positions.forEach(pos => { const existing = finalPositions.get(...); if
(!existing || new Date(pos.date) > new Date(positions.find(p =>
p.driver_number === pos.driver_number && p.position ===
existing)?.date || '')) finalPositions.set(...) })`.  A failed inner
`find` yields `new Date('')`, i.e. `NaN`, and the `>` comparison is then
false, so the entry is kept. -/
def finalPositionsStep (positions : List Position) (acc : List (Nat × Nat))
    (pos : Position) : List (Nat × Nat) :=
  match mapGet acc pos.driver_number with
  | none => mapSet acc pos.driver_number pos.position
  | some existing =>
    if existing = 0 then mapSet acc pos.driver_number pos.position
    else
      match positions.find? (fun p =>
          p.driver_number == pos.driver_number && p.position == existing) with
      | some p0 =>
        if p0.date < pos.date then mapSet acc pos.driver_number pos.position
        else acc
      | none => acc

/-- The latest-position map a race session's scoring is based on. -/
def finalPositions (positions : List Position) : List (Nat × Nat) :=
  positions.foldl (finalPositionsStep positions) []

/-- Accumulated per-driver season statistics. -/
structure DriverStat where
  driver : Driver
  points : JsNum
  wins : Nat
  podiums : Nat
deriving DecidableEq, Repr

/-- Accumulated per-constructor season statistics (`drivers` is the JS
`Set` of contributing driver numbers, in insertion order). -/
structure ConstructorStat where
  team_name : String
  team_colour : String
  points : JsNum
  wins : Nat
  podiums : Nat
  drivers : List Nat
deriving DecidableEq, Repr

/-- The two accumulation maps of the aggregation loop. -/
structure Stats where
  driverStats : List (Nat × DriverStat)
  constructorStats : List (String × ConstructorStat)
deriving DecidableEq, Repr

/-- The empty accumulator the season loop starts from. -/
def emptyStats : Stats := ⟨[], []⟩

/-- `position <= pointsSystem.length ? pointsSystem[position - 1] : 0`.
For the 1-based positions 1–10 this is the table value and above 10 it is
0, but at `position = 0` the source reads `pointsSystem[-1] = undefined`,
which poisons the accumulated points to `NaN`. -/
def pointsFor (position : Nat) : JsNum :=
  if position ≤ pointsSystem.length then
    if position = 0 then JsNum.nan
    else JsNum.num (pointsSystem.getD (position - 1) 0)
  else JsNum.num 0

/-- Award one entry of the final-positions map: look the driver up in the
session's driver list (silently skipping the entry when absent) and add
points, win and podium to the driver's and their team's running totals. -/
def awardEntry (drivers : List Driver) (st : Stats) (entry : Nat × Nat) :
    Stats :=
  let driverNumber := entry.1
  let position := entry.2
  match drivers.find? (fun d => d.driver_number == driverNumber) with
  | none => st
  | some driver =>
    let points := pointsFor position
    let isWin := position = 1
    let isPodium := position ≤ 3
    let dstat := (mapGet st.driverStats driverNumber).getD
      ⟨driver, JsNum.num 0, 0, 0⟩
    let dstat' : DriverStat :=
      { dstat with
        points := JsNum.add dstat.points points,
        wins := if isWin then dstat.wins + 1 else dstat.wins,
        podiums := if isPodium then dstat.podiums + 1 else dstat.podiums }
    let cstat := (mapGet st.constructorStats driver.team_name).getD
      ⟨driver.team_name, driver.team_colour, JsNum.num 0, 0, 0, []⟩
    let cstat' : ConstructorStat :=
      { cstat with
        points := JsNum.add cstat.points points,
        drivers := setAdd cstat.drivers driverNumber,
        wins := if isWin then cstat.wins + 1 else cstat.wins,
        podiums := if isPodium then cstat.podiums + 1 else cstat.podiums }
    { driverStats := mapSet st.driverStats driverNumber dstat',
      constructorStats := mapSet st.constructorStats driver.team_name cstat' }

/-- The drivers/positions record sets fetched for one race session. -/
structure RaceData where
  drivers : List Driver
  positions : List Position
deriving DecidableEq, Repr

/-- Process one successfully fetched race session: award every entry of
its final-positions map. -/
def processSession (st : Stats) (data : RaceData) : Stats :=
  (finalPositions data.positions).foldl (awardEntry data.drivers) st

/-- The per-session loop with its `try`/`catch`: a session whose fetch or
processing failed (`Except.error`) is skipped (the `catch` only logs a
warning) and aggregation continues with the accumulator unchanged. -/
def processSessions (st : Stats)
    (sessions : List (Except String RaceData)) : Stats :=
  sessions.foldl
    (fun st r =>
      match r with
      | .ok data => processSession st data
      | .error _ => st)
    st

/-- The position records a session's fetch outcome carries (none for a
failed fetch). -/
def sessionPositions : Except String RaceData → List Position
  | Except.ok data => data.positions
  | Except.error _ => []

/-- One row of the returned driver standings table. -/
structure DriverStanding where
  position : Nat
  driver_number : Nat
  name_acronym : String
  full_name : String
  team_name : String
  team_colour : String
  points : JsNum
  wins : Nat
  podiums : Nat
deriving DecidableEq, Repr, Inhabited

/-- A contributing driver inside a constructor-standings row. -/
structure ConstructorDriver where
  driver_number : Nat
  name_acronym : String
  points : JsNum
deriving DecidableEq, Repr

/-- One row of the returned constructor standings table. -/
structure ConstructorStanding where
  position : Nat
  team_name : String
  team_colour : String
  points : JsNum
  wins : Nat
  podiums : Nat
  drivers : List ConstructorDriver
deriving DecidableEq, Repr, Inhabited

/-- The shared sort comparator as the "`a` sorts no later than `b`"
relation, per ECMAScript `SortCompare`.  When both points are numbers the
comparator chain orders descending by points, then wins, then podiums.
When either side's points are `NaN`, `b.points !== a.points` holds (`NaN`
is unequal even to itself), the comparator returns `b.points - a.points =
NaN`, and `SortCompare` coerces `NaN` to `+0` — a tie in both directions.
The comparator is then inconsistent and the ES sort order is
implementation-defined; the stable insertion sort realizes one conforming
behaviour. -/
def standingsLe (pa : JsNum) (wa poa : Nat) (pb : JsNum) (wb pob : Nat) :
    Bool :=
  match pa, pb with
  | JsNum.num a, JsNum.num b =>
    decide (b < a ∨ (a = b ∧ (wb < wa ∨ (wa = wb ∧ pob ≤ poa))))
  | _, _ => true

/-- Comparator instance for driver rows. -/
def driverLe (a b : DriverStanding) : Bool :=
  standingsLe a.points a.wins a.podiums b.points b.wins b.podiums

/-- Comparator instance for constructor rows. -/
def constructorLe (a b : ConstructorStanding) : Bool :=
  standingsLe a.points a.wins a.podiums b.points b.wins b.podiums

/-- The driver standings rows before sorting, in `Map` insertion order
(`Array.from(driverStats.entries()).map(...)`), with the placeholder
`position: 0`. -/
def unrankedDrivers (st : Stats) : List DriverStanding :=
  st.driverStats.map (fun e =>
    { position := 0,
      driver_number := e.1,
      name_acronym := e.2.driver.name_acronym,
      full_name := e.2.driver.full_name,
      team_name := e.2.driver.team_name,
      team_colour := e.2.driver.team_colour,
      points := e.2.points,
      wins := e.2.wins,
      podiums := e.2.podiums })

/-- The driver rows after the stable sort. -/
def sortedDrivers (st : Stats) : List DriverStanding :=
  stableSort driverLe (unrankedDrivers st)

/-- The returned driver standings: sorted rows reindexed with their
1-based rank (`.map((driver, index) => ({...driver, position: index + 1}))`). -/
def rankDrivers (st : Stats) : List DriverStanding :=
  (sortedDrivers st).enum.map (fun p => { p.2 with position := p.1 + 1 })

/-- The constructor standings rows before sorting, in `Map` insertion
order. -/
def unrankedConstructors (st : Stats) : List ConstructorStanding :=
  st.constructorStats.map (fun e =>
    { position := 0,
      team_name := e.1,
      team_colour := e.2.team_colour,
      points := e.2.points,
      wins := e.2.wins,
      podiums := e.2.podiums,
      drivers := e.2.drivers.map (fun driverNumber =>
        match mapGet st.driverStats driverNumber with
        | some dstat =>
          { driver_number := driverNumber,
            name_acronym :=
              jsOrStr (some dstat.driver.name_acronym) s!"D{driverNumber}",
            points := dstat.points.orZero }
        | none =>
          { driver_number := driverNumber,
            name_acronym := s!"D{driverNumber}",
            points := JsNum.num 0 }) })

/-- The constructor rows after the stable sort. -/
def sortedConstructors (st : Stats) : List ConstructorStanding :=
  stableSort constructorLe (unrankedConstructors st)

/-- The returned constructor standings with 1-based ranks. -/
def rankConstructors (st : Stats) : List ConstructorStanding :=
  (sortedConstructors st).enum.map (fun p => { p.2 with position := p.1 + 1 })

/-- The returned championship data. -/
structure ChampionshipData where
  drivers : List DriverStanding
  constructors : List ConstructorStanding
  last_updated : Int
deriving DecidableEq, Repr

/-- `getChampionshipStandings`, from the point where the year's race
sessions have been selected: each list element is one race session's
fetch/processing outcome, `now` the epoch instant stamped into
`last_updated`. -/
def getChampionshipStandings (sessions : List (Except String RaceData))
    (now : Int) : ChampionshipData :=
  let st := processSessions emptyStats sessions
  { drivers := rankDrivers st,
    constructors := rankConstructors st,
    last_updated := now }

/-! ## Replay timeline builder (`processRaceData`, RaceReplay.tsx) -/

/-- A lap record (`date_start` in epoch milliseconds; durations may be
missing). -/
structure Lap where
  driver_number : Nat
  lap_number : Nat
  lap_duration : Option ℚ
  duration_sector_1 : Option ℚ
  duration_sector_2 : Option ℚ
  duration_sector_3 : Option ℚ
  date_start : Int
  is_pit_out_lap : Bool
deriving DecidableEq, Repr, Inhabited

/-- A race-control record. -/
structure RaceControl where
  date : Int
  category : String
  flag : Option String
  message : String
  driver_number : Option Nat
deriving DecidableEq, Repr, Inhabited

/-- The full input of `processRaceData`: the fetched record sets, the
qualifying-grid map, and the wall clock (`Date.now()`, used only when no
lap completion exists). -/
structure ReplayInput where
  drivers : List Driver
  positions : List Position
  laps : List Lap
  grid : List (Nat × Nat)
  raceControl : List RaceControl
  now : Int
deriving Repr, Inhabited

/-- `Math.max(...laps.map(l => l.lap_number), 1)`. -/
def maxLap (laps : List Lap) : Nat :=
  (laps.map (·.lap_number)).foldl max 1

/-- The eligibility filter: keep drivers with more than three lap
records (`driverLaps.length > 3`). -/
def finishingDrivers (drivers : List Driver) (laps : List Lap) :
    List Driver :=
  drivers.filter (fun dr =>
    3 < (laps.filter (fun l => l.driver_number == dr.driver_number)).length)

/-- The position attached to a lap completion:
`positions.find(p => same driver && |date − lap start| < 60000)?.position
|| qualifyingPositions[n] || n`.  `find` returns the first sample in input
order inside the 60-second window, and the two `||` fallbacks treat a `0`
position as missing. -/
def attachedPosition (positions : List Position) (grid : List (Nat × Nat))
    (d : Nat) (t : Int) : Nat :=
  jsOrNat
    ((positions.find? (fun p =>
        p.driver_number == d && (p.date - t).natAbs < 60000)).map (·.position))
    (jsOrNat (mapGet grid d) d)

/-- One driver's lap-completion event. -/
structure Completion where
  timestamp : Int
  driver_number : Nat
  lap_number : Nat
  cumulative_time : ℚ
  position : Nat
deriving DecidableEq, Repr, Inhabited

/-- The cumulative-time scan over one driver's duration-sorted laps
(`cumulativeTime += lap.lap_duration || 0`). -/
def cumScan (positions : List Position) (grid : List (Nat × Nat)) (d : Nat) :
    ℚ → List Lap → List Completion
  | _, [] => []
  | c, l :: ls =>
    let c' := c + l.lap_duration.getD 0
    { timestamp := l.date_start,
      driver_number := d,
      lap_number := l.lap_number,
      cumulative_time := c',
      position := attachedPosition positions grid d l.date_start }
      :: cumScan positions grid d c' ls

/-- One eligible driver's lap completions: laps with a non-null duration,
stably sorted by lap number, scanned for cumulative time. -/
def driverCompletions (positions : List Position) (laps : List Lap)
    (grid : List (Nat × Nat)) (dr : Driver) : List Completion :=
  let dlaps :=
    stableSort (fun a b => a.lap_number ≤ b.lap_number)
      (laps.filter (fun l =>
        l.driver_number == dr.driver_number && l.lap_duration.isSome))
  cumScan positions grid dr.driver_number 0 dlaps

/-- All eligible drivers' lap completions merged and stably sorted by
wall-clock timestamp. -/
def allLapCompletions (inp : ReplayInput) : List Completion :=
  stableSort (fun a b => a.timestamp ≤ b.timestamp)
    (((finishingDrivers inp.drivers inp.laps).map
      (driverCompletions inp.positions inp.laps inp.grid)).flatten)

/-- `Math.min(maxLap * 2, 100)`. -/
def timeIntervals (inp : ReplayInput) : Nat :=
  min (maxLap inp.laps * 2) 100

/-- First merged completion timestamp, or `Date.now()` when none exists. -/
def startTime (inp : ReplayInput) : Int :=
  match (allLapCompletions inp).head? with
  | some c => c.timestamp
  | none => inp.now

/-- Last merged completion timestamp, or `Date.now() + 1000` when none
exists. -/
def endTime (inp : ReplayInput) : Int :=
  match (allLapCompletions inp).getLast? with
  | some c => c.timestamp
  | none => inp.now + 1000

/-- `(endTime - startTime) / timeIntervals`. -/
def timeStep (inp : ReplayInput) : ℚ :=
  ((endTime inp - startTime inp : Int) : ℚ) / (timeIntervals inp : ℚ)

/-- The per-driver mutable state record of the frame loop. -/
structure DState where
  position : Nat
  lap_number : Nat
  cumulative_time : ℚ
  pit_stops : Nat
  is_in_pit : Bool
  baseline_progress : ℚ
deriving DecidableEq, Repr, Inhabited

/-- Point update of the state map. -/
def updateState (st : Nat → DState) (k : Nat) (v : DState) : Nat → DState :=
  fun k' => if k' = k then v else st k'

/-- The initial state of one driver: qualifying-grid position (driver
number when absent), no laps, no pit stops, zero baseline progress. -/
def initState (grid : List (Nat × Nat)) (dr : Driver) : DState :=
  { position := jsOrNat (mapGet grid dr.driver_number) dr.driver_number,
    lap_number := 0,
    cumulative_time := 0,
    pit_stops := 0,
    is_in_pit := false,
    baseline_progress := 0 }

/-- The state map after initializing every finishing driver.  Keys that
are never initialized are never read by the loop (completions and frame
entries only mention finishing drivers); they carry the `default`
record. -/
def initStates (grid : List (Nat × Nat)) (fds : List Driver) : Nat → DState :=
  fds.foldl (fun st dr => updateState st dr.driver_number (initState grid dr))
    (fun _ => default)

/-- Apply one merged completion at frame time `ct`: a completion that has
happened (`timestamp ≤ ct`) and advances the driver's lap count updates
lap number, cumulative time and position, and sets the pit fields from
whether the completed lap is a pit-out lap. -/
def applyCompletion (laps : List Lap) (ct : ℚ) (st : Nat → DState)
    (c : Completion) : Nat → DState :=
  if (c.timestamp : ℚ) ≤ ct then
    let s := st c.driver_number
    if s.lap_number < c.lap_number then
      let pit := (laps.find? (fun l =>
        l.driver_number == c.driver_number && l.lap_number == c.lap_number &&
          l.is_pit_out_lap)).isSome
      updateState st c.driver_number
        { s with
          lap_number := c.lap_number,
          cumulative_time := c.cumulative_time,
          position := c.position,
          pit_stops := if pit then s.pit_stops + 1 else s.pit_stops,
          is_in_pit := pit }
    else st
  else st

/-- The blended progress heuristic of the frame loop, before the
monotonic baseline floor: lap fraction plus the small position bias
(clamped to 1, floored at 80% of global progress) for drivers with a
completed lap, otherwise 10% of global progress floored at 0.01. -/
def computedProgress (totalLaps intervals i : Nat) (s : DState) : ℚ :=
  let globalProgress : ℚ := (i : ℚ) * (1 / (intervals : ℚ))
  if 0 < s.lap_number then
    let lapProgress : ℚ := (s.lap_number : ℚ) / (totalLaps : ℚ)
    let positionModifier : ℚ := ((20 : ℚ) - (s.position : ℚ)) * (2 / 1000)
    qmax (qmin (lapProgress + positionModifier) 1) (globalProgress * (4 / 5))
  else qmax (globalProgress * (1 / 10)) (1 / 100)

/-- One driver's row of a frame. -/
structure Entry where
  driver_number : Nat
  position : Nat
  progress : ℚ
  team_colour : String
  name_acronym : String
  full_name : String
  pit_stops : Nat
  is_in_pit : Bool
  last_lap_time : Option ℚ
  sector_1_time : Option ℚ
  sector_2_time : Option ℚ
  sector_3_time : Option ℚ
  current_lap_number : Nat
  interpolated_position : Option ℚ
  position_change : Option Int
deriving DecidableEq, Repr, Inhabited

/-- The driver's latest started lap at frame time `ct`: laps up to now,
stably sorted by descending lap number, first element. -/
def latestLap (laps : List Lap) (d : Nat) (ct : ℚ) : Option Lap :=
  (stableSort (fun a b => b.lap_number ≤ a.lap_number)
    (laps.filter (fun l =>
      l.driver_number == d && ((l.date_start : ℚ) ≤ ct : Bool)))).head?

/-- The per-frame pass over the finishing drivers: emit one `Entry` per
driver and raise that driver's monotonic `baseline_progress` floor in the
state map (the mutation the JS `map` callback performs on
`driverState`). -/
def framePass (totalLaps intervals i : Nat) (ct : ℚ) (laps : List Lap) :
    List Driver → (Nat → DState) → List Entry × (Nat → DState)
  | [], st => ([], st)
  | dr :: rest, st =>
    let s := st dr.driver_number
    let b := qmax s.baseline_progress (computedProgress totalLaps intervals i s)
    let ll := latestLap laps dr.driver_number ct
    let entry : Entry :=
      { driver_number := dr.driver_number,
        position := s.position,
        progress := qmax b (1 / 100),
        team_colour := jsOrStr (some dr.team_colour) "#ffffff",
        name_acronym := jsOrStr (some dr.name_acronym) s!"D{dr.driver_number}",
        full_name :=
          jsOrStr (some dr.full_name) s!"Driver {dr.driver_number}",
        pit_stops := s.pit_stops,
        is_in_pit := s.is_in_pit,
        last_lap_time := jsOrNull (ll.bind (·.lap_duration)),
        sector_1_time := jsOrNull (ll.bind (·.duration_sector_1)),
        sector_2_time := jsOrNull (ll.bind (·.duration_sector_2)),
        sector_3_time := jsOrNull (ll.bind (·.duration_sector_3)),
        current_lap_number := s.lap_number,
        interpolated_position := none,
        position_change := none }
    let st' := updateState st dr.driver_number { s with baseline_progress := b }
    let res := framePass totalLaps intervals i ct laps rest st'
    (entry :: res.1, res.2)

/-- A flag overlay attached to a frame. -/
structure FlagInfo where
  type : String
  message : String
  driver_number : Option Nat
deriving DecidableEq, Repr, Inhabited

/-- The race-control events attached to frame time `ct`: within 30
seconds and carrying a flag (truthy) or categorized `'Flag'`
(`rc.driver_number || undefined` collapses a `0` driver number). -/
def frameFlags (raceControl : List RaceControl) (ct : ℚ) : List FlagInfo :=
  (raceControl.filter (fun rc =>
      (qabs ((rc.date : ℚ) - ct) < 30000 : Bool) &&
        ((match rc.flag with
          | some s => s ≠ ""
          | none => false : Bool) || rc.category == "Flag"))).map
    (fun rc =>
      { type := jsOrStr rc.flag "FLAG",
        message := rc.message,
        driver_number :=
          match rc.driver_number with
          | some n => if n = 0 then none else some n
          | none => none })

/-- One synthetic frame of the replay timeline. -/
structure Frame where
  timestamp : ℚ
  lapNumber : Nat
  totalLaps : Nat
  positions : List Entry
  flags : List FlagInfo
deriving DecidableEq, Repr, Inhabited

/-- The wall-clock instant of frame `i`:
`startTime + (i * timeStep)`. -/
def frameCT (inp : ReplayInput) (i : Nat) : ℚ :=
  ((startTime inp : Int) : ℚ) + (i : ℚ) * timeStep inp

/-- The state map of frame `i` after applying all completions up to the
frame time. -/
def frameStates2 (inp : ReplayInput) (i : Nat) (st : Nat → DState) :
    Nat → DState :=
  (allLapCompletions inp).foldl (applyCompletion inp.laps (frameCT inp i)) st

/-- The per-driver pass of frame `i` (rows plus mutated state map). -/
def framePassAt (inp : ReplayInput) (i : Nat) (st : Nat → DState) :
    List Entry × (Nat → DState) :=
  framePass (maxLap inp.laps) (timeIntervals inp) i (frameCT inp i) inp.laps
    (finishingDrivers inp.drivers inp.laps) (frameStates2 inp i st)

/-- Build frame `i` from the incoming state map: apply all completions up
to the frame time, run the per-driver pass, stably sort the rows by
position ascending, and read the current lap as the max lap count over
the state map's values (at least 1). -/
def mkFrame (inp : ReplayInput) (i : Nat) (st : Nat → DState) :
    Frame × (Nat → DState) :=
  ({ timestamp := frameCT inp i,
     lapNumber :=
       ((finishingDrivers inp.drivers inp.laps).map
         (fun dr => ((framePassAt inp i st).2 dr.driver_number).lap_number)).foldl
         max 1,
     totalLaps := maxLap inp.laps,
     positions :=
       stableSort (fun a b => a.position ≤ b.position) (framePassAt inp i st).1,
     flags := frameFlags inp.raceControl (frameCT inp i) },
   (framePassAt inp i st).2)

/-- The frame loop `for (let i = 0; i <= timeIntervals; i++)`, carrying
the state map across frames; `n` is the number of frames still to
build. -/
def frameLoop (inp : ReplayInput) : Nat → Nat → (Nat → DState) → List Frame
  | 0, _, _ => []
  | n + 1, i, st =>
    let res := mkFrame inp i st
    res.1 :: frameLoop inp n (i + 1) res.2

/-- `processRaceData`: the full replay timeline. -/
def processRaceData (inp : ReplayInput) : List Frame :=
  frameLoop inp (timeIntervals inp + 1) 0
    (initStates inp.grid (finishingDrivers inp.drivers inp.laps))

/-- `interpolateDriverPositions`: sub-frame interpolation between a
previous and the current frame at a ratio, returning the current frame's
rows with interpolated progress, an interpolated fractional position and
the position delta (rows of drivers absent from the previous frame, and
the whole list when there is no previous frame or the ratio has reached
1, are returned unchanged). -/
def interpolateDriverPositions (prevFrame : Option Frame)
    (currentFrame : Frame) (progress : ℚ) : List Entry :=
  match prevFrame with
  | none => currentFrame.positions
  | some pf =>
    if 1 ≤ progress then currentFrame.positions
    else
      currentFrame.positions.map (fun cur =>
        match pf.positions.find? (fun p =>
            p.driver_number == cur.driver_number) with
        | none => cur
        | some prev =>
          { cur with
            progress :=
              prev.progress + (cur.progress - prev.progress) * progress,
            interpolated_position :=
              some ((prev.position : ℚ) +
                ((cur.position : ℚ) - (prev.position : ℚ)) * progress),
            position_change :=
              some ((cur.position : Int) - (prev.position : Int)) })

/-! ## Theorems: standings error handling (C9) -/

/-- Skipping a failed session leaves the accumulator fold unchanged. -/
theorem processSessions_append_error (st : Stats)
    (l₁ l₂ : List (Except String RaceData)) (e : String) :
    processSessions st (l₁ ++ Except.error e :: l₂) =
      processSessions st (l₁ ++ l₂) := by
  simp [processSessions, List.foldl_append]

/-- C9: if fetching or processing one race session fails during
`getChampionshipStandings`, that session is skipped and aggregation
continues: the returned standings are exactly the standings computed from
the remaining (successfully processed) sessions, so every other session's
points, wins and podiums are retained and no driver entry is missing
because of the failed session. -/
theorem standings_skip_failed_session
    (l₁ l₂ : List (Except String RaceData)) (e : String) (now : Int) :
    getChampionshipStandings (l₁ ++ Except.error e :: l₂) now =
      getChampionshipStandings (l₁ ++ l₂) now := by
  unfold getChampionshipStandings
  rw [processSessions_append_error]

/-! ## Theorems: interpolation endpoints (C6) -/

/-- A concrete entry used by the interpolation counterexample. -/
def entPrev : Entry :=
  { driver_number := 1,
    position := 2,
    progress := 1 / 2,
    team_colour := "#111111",
    name_acronym := "AAA",
    full_name := "Aa Aa",
    pit_stops := 0,
    is_in_pit := false,
    last_lap_time := none,
    sector_1_time := none,
    sector_2_time := none,
    sector_3_time := none,
    current_lap_number := 1,
    interpolated_position := none,
    position_change := none }

/-- The same driver one frame later, having gained a position. -/
def entCur : Entry := { entPrev with position := 1, progress := 7 / 10 }

/-- The previous frame of the interpolation counterexample. -/
def framePrev : Frame :=
  { timestamp := 0, lapNumber := 1, totalLaps := 2,
    positions := [entPrev], flags := [] }

/-- The current frame of the interpolation counterexample. -/
def frameCur : Frame := { framePrev with timestamp := 1, positions := [entCur] }

/-- C6 counterexample: interpolating with ratio 0 does not return the
previous frame's driver states — at this input the returned row keeps the
current frame's `position` (1) while the previous frame's state has
position 2 (only `progress` and the added `interpolated_position` track
the previous frame). -/
theorem interpolate_ratio_zero_not_prev :
    interpolateDriverPositions (some framePrev) frameCur 0 ≠
      framePrev.positions := by
  decide

/-- C6 (amended): interpolating with ratio 1 returns the current frame's
rows exactly; interpolating with ratio 0 returns, for every driver of the
current frame that is also in the previous frame, the current row with
`progress` replaced by the previous frame's progress,
`interpolated_position` set to the previous frame's position and
`position_change` set to the position delta — all other fields (including
`position` itself) stay those of the current frame, and drivers absent
from the previous frame are returned unchanged. -/
theorem interpolate_endpoints (pf cf : Frame) :
    interpolateDriverPositions (some pf) cf 1 = cf.positions ∧
    interpolateDriverPositions (some pf) cf 0 =
      cf.positions.map (fun cur =>
        match pf.positions.find? (fun p =>
            p.driver_number == cur.driver_number) with
        | none => cur
        | some prev =>
          { cur with
            progress := prev.progress,
            interpolated_position := some ((prev.position : ℚ)),
            position_change :=
              some ((cur.position : Int) - (prev.position : Int)) }) := by
  constructor
  · simp [interpolateDriverPositions]
  · simp only [interpolateDriverPositions]
    norm_num

/-! ## Theorems: final classification (C3) -/

/-- Updating an association list in place puts the new pair where the key
was found. -/
theorem find?_map_update {K V : Type} [DecidableEq K]
    (m : List (K × V)) (k : K) (v : V)
    (h : (m.find? (fun e => e.1 = k)).isSome) :
    List.find? (fun e => e.1 = k)
        (m.map (fun e => if e.1 = k then (k, v) else e)) = some (k, v) := by
  induction m with
  | nil => simp at h
  | cons e rest ih =>
    by_cases he : e.1 = k
    · simp [List.find?_cons, he]
    · simp only [List.map_cons, if_neg he]
      rw [List.find?_cons_of_neg _ (by simpa using he)]
      rw [List.find?_cons_of_neg _ (by simpa using he)] at h
      exact ih h

/-- In-place update at key `k` is invisible to a lookup at another key. -/
theorem find?_map_update_ne {K V : Type} [DecidableEq K]
    (m : List (K × V)) (k k' : K) (v : V) (h : k' ≠ k) :
    List.find? (fun e => e.1 = k')
        (m.map (fun e => if e.1 = k then (k, v) else e)) =
      List.find? (fun e => e.1 = k') m := by
  induction m with
  | nil => rfl
  | cons e rest ih =>
    by_cases he : e.1 = k'
    · have hek : ¬ e.1 = k := fun hk => h (he ▸ hk)
      simp only [List.map_cons, if_neg hek]
      rw [List.find?_cons_of_pos _ (by simpa using he),
        List.find?_cons_of_pos _ (by simpa using he)]
    · by_cases hek : e.1 = k
      · simp only [List.map_cons, if_pos hek]
        rw [List.find?_cons_of_neg _ (by simpa using fun hk => h hk.symm)]
        rw [List.find?_cons_of_neg _ (by simpa using he)]
        exact ih
      · simp only [List.map_cons, if_neg hek]
        rw [List.find?_cons_of_neg _ (by simpa using he)]
        rw [List.find?_cons_of_neg _ (by simpa using he)]
        exact ih

/-- `mapGet` after `mapSet` at the same key. -/
theorem mapGet_mapSet_self {K V : Type} [DecidableEq K]
    (m : List (K × V)) (k : K) (v : V) : mapGet (mapSet m k v) k = some v := by
  unfold mapGet mapSet
  by_cases h : (List.find? (fun e => e.1 = k) m).isSome
  · rw [if_pos h, find?_map_update m k v h]
    rfl
  · rw [if_neg h, List.find?_append]
    rw [Option.not_isSome_iff_eq_none] at h
    rw [h]
    simp

/-- `mapGet` after `mapSet` at a different key. -/
theorem mapGet_mapSet_ne {K V : Type} [DecidableEq K]
    (m : List (K × V)) (k k' : K) (v : V) (h : k' ≠ k) :
    mapGet (mapSet m k v) k' = mapGet m k' := by
  unfold mapGet mapSet
  by_cases hs : (List.find? (fun e => e.1 = k) m).isSome
  · rw [if_pos hs, find?_map_update_ne m k k' v h]
  · rw [if_neg hs, List.find?_append]
    rw [List.find?_cons_of_neg _ (by simpa using fun hk => h hk.symm)]
    simp

/-- The value the final-classification scan would assign for the key it
touches (proof device: the per-key projection of `finalPositionsStep`). -/
def stepD (P : List Position) (acc : Option Nat) (pos : Position) :
    Option Nat :=
  match acc with
  | none => some pos.position
  | some existing =>
    if existing = 0 then some pos.position
    else
      match P.find? (fun p =>
          p.driver_number == pos.driver_number && p.position == existing) with
      | some p0 => if p0.date < pos.date then some pos.position else acc
      | none => acc

/-- `finalPositionsStep` only touches the key of the record it processes,
where it assigns `stepD`. -/
theorem mapGet_finalPositionsStep (P : List Position)
    (m : List (Nat × Nat)) (pos : Position) (d : Nat) :
    mapGet (finalPositionsStep P m pos) d =
      if d = pos.driver_number then stepD P (mapGet m pos.driver_number) pos
      else mapGet m d := by
  by_cases hd : d = pos.driver_number
  · subst hd
    unfold finalPositionsStep stepD
    cases hget : mapGet m pos.driver_number with
    | none => simpa using mapGet_mapSet_self m pos.driver_number pos.position
    | some existing =>
      by_cases h0 : existing = 0
      · simpa [h0] using mapGet_mapSet_self m pos.driver_number pos.position
      · simp only [if_neg h0, if_pos rfl]
        cases hfind : P.find? (fun p =>
            p.driver_number == pos.driver_number && p.position == existing) with
        | none => simp [hget]
        | some p0 =>
          by_cases hdate : p0.date < pos.date
          · simpa [hdate] using
              mapGet_mapSet_self m pos.driver_number pos.position
          · simp [hdate, hget]
  · unfold finalPositionsStep
    cases hget : mapGet m pos.driver_number with
    | none => simp [hd, mapGet_mapSet_ne m pos.driver_number d _ hd]
    | some existing =>
      by_cases h0 : existing = 0
      · simp [hd, h0, mapGet_mapSet_ne m pos.driver_number d _ hd]
      · simp only [if_neg h0]
        cases hfind : P.find? (fun p =>
            p.driver_number == pos.driver_number && p.position == existing) with
        | none => simp [hd]
        | some p0 =>
          by_cases hdate : p0.date < pos.date
          · simp [hd, hdate, mapGet_mapSet_ne m pos.driver_number d _ hd]
          · simp [hd, hdate]

/-- The whole scan, projected to one key, is a fold of `stepD` over that
driver's records. -/
theorem mapGet_finalPositions_fold (P : List Position) (d : Nat) :
    ∀ (l : List Position) (m : List (Nat × Nat)),
      mapGet (l.foldl (finalPositionsStep P) m) d =
        (l.filter (fun p => p.driver_number == d)).foldl (stepD P) (mapGet m d)
  | [], m => rfl
  | pos :: rest, m => by
    simp only [List.foldl_cons]
    rw [mapGet_finalPositions_fold P d rest]
    by_cases hd : pos.driver_number = d
    · rw [List.filter_cons_of_pos (by simpa using hd)]
      simp [mapGet_finalPositionsStep, hd]
    · rw [List.filter_cons_of_neg (by simpa using hd)]
      rw [mapGet_finalPositionsStep]
      rw [if_neg (fun h => hd h.symm)]

/-- `find?` for a conjunctive predicate factors through `filter`. -/
theorem find?_filter_and {α : Type} (p q : α → Bool) :
    ∀ l : List α, l.find? (fun x => p x && q x) = (l.filter p).find? q
  | [] => rfl
  | a :: l => by
    by_cases hp : p a
    · rw [List.filter_cons_of_pos hp]
      by_cases hq : q a
      · rw [List.find?_cons_of_pos _ (by simp [hp, hq]),
          List.find?_cons_of_pos _ hq]
      · rw [List.find?_cons_of_neg _ (by simp [hq]),
          List.find?_cons_of_neg _ (by simpa using hq)]
        exact find?_filter_and p q l
    · rw [List.filter_cons_of_neg (by simpa using hp),
        List.find?_cons_of_neg _ (by simp [hp])]
      exact find?_filter_and p q l

/-- `foldl` only depends on the step function's behaviour at list
members. -/
theorem foldl_congr_mem {α β : Type} (f g : β → α → β) :
    ∀ (l : List α) (a : β), (∀ x ∈ l, ∀ acc, f acc x = g acc x) →
      l.foldl f a = l.foldl g a
  | [], _, _ => rfl
  | x :: l, a, h => by
    simp only [List.foldl_cons]
    rw [h x (by simp) a]
    exact foldl_congr_mem f g l _ (fun y hy acc => h y (by simp [hy]) acc)

/-- `stepD` restricted to one driver's records (proof device): the inner
lookup runs over that driver's records only. -/
def stepL (L : List Position) (acc : Option Nat) (pos : Position) :
    Option Nat :=
  match acc with
  | none => some pos.position
  | some existing =>
    if existing = 0 then some pos.position
    else
      match L.find? (fun p => p.position == existing) with
      | some p0 => if p0.date < pos.date then some pos.position else acc
      | none => acc

/-- For a record of driver `d`, the scan step only consults driver `d`'s
records. -/
theorem stepD_eq_stepL (P : List Position) (d : Nat) (pos : Position)
    (hpos : pos.driver_number = d) (acc : Option Nat) :
    stepD P acc pos =
      stepL (P.filter (fun p => p.driver_number == d)) acc pos := by
  unfold stepD stepL
  cases acc with
  | none => rfl
  | some existing =>
    by_cases h0 : existing = 0
    · simp [h0]
    · simp only [if_neg h0, hpos]
      rw [find?_filter_and (fun p => p.driver_number == d)
        (fun p => p.position == existing) P]

/-- Over a strictly date-sorted record list of one driver, the scan fold
always holds the last processed record's position. -/
theorem stepL_foldl_sorted (L : List Position)
    (hs : L.Pairwise (fun a b => a.date < b.date)) :
    ∀ (l₂ l₁ : List Position) (hne : l₁ ≠ []), L = l₁ ++ l₂ →
      l₂.foldl (stepL L) (some ((l₁.getLast hne).position)) =
        L.getLast?.map (·.position)
  | [], l₁, hne, hL => by
    subst hL
    rw [List.append_nil, List.getLast?_eq_getLast _ hne]
    rfl
  | x :: l₂', l₁, hne, hL => by
    have hlast_mem : l₁.getLast hne ∈ l₁ := List.getLast_mem hne
    have hstep :
        stepL L (some ((l₁.getLast hne).position)) x = some x.position := by
      unfold stepL
      by_cases h0 : (l₁.getLast hne).position = 0
      · simp [h0]
      · simp only [if_neg h0]
        have hfind₁ :
            (l₁.find? (fun p =>
              p.position == (l₁.getLast hne).position)).isSome := by
          rw [List.find?_isSome]
          exact ⟨l₁.getLast hne, hlast_mem, by simp⟩
        obtain ⟨p1, hp1⟩ := Option.isSome_iff_exists.mp hfind₁
        have hfindL :
            L.find? (fun p => p.position == (l₁.getLast hne).position) =
              some p1 := by
          rw [hL, List.find?_append, hp1]
          rfl
        have hp1_mem : p1 ∈ l₁ := List.mem_of_find?_eq_some hp1
        have hdate : p1.date < x.date := by
          have := (List.pairwise_append.mp (hL ▸ hs)).2.2
          exact this p1 hp1_mem x (by simp)
        rw [hfindL]
        simp [hdate]
    rw [List.foldl_cons, hstep]
    have hne' : l₁ ++ [x] ≠ [] := by simp
    have hlast' : (l₁ ++ [x]).getLast hne' = x := List.getLast_concat _
    have := stepL_foldl_sorted L hs l₂' (l₁ ++ [x]) hne'
      (by rw [hL, List.append_assoc]; rfl)
    rw [hlast'] at this
    exact this

/-- C3 (amended): when each driver's position samples appear in strictly
increasing chronological order in the session's record list, the final
classification position the scan computes for a driver is the position
value of that driver's chronologically latest (i.e. last) sample; for
arbitrary input orderings the scan's self-referential lookup can settle
on a different sample (see the counterexample). -/
theorem finalPositions_latest_of_sorted (positions : List Position) (d : Nat)
    (hsorted : (positions.filter (fun p => p.driver_number == d)).Pairwise
      (fun a b => a.date < b.date)) :
    mapGet (finalPositions positions) d =
      ((positions.filter (fun p => p.driver_number == d)).getLast?).map
        (·.position) := by
  unfold finalPositions
  rw [mapGet_finalPositions_fold]
  have hnone : mapGet ([] : List (Nat × Nat)) d = none := rfl
  rw [hnone]
  have hcongr :
      (positions.filter (fun p => p.driver_number == d)).foldl
          (stepD positions) none =
        (positions.filter (fun p => p.driver_number == d)).foldl
          (stepL (positions.filter (fun p => p.driver_number == d))) none := by
    apply foldl_congr_mem
    intro x hx acc
    exact stepD_eq_stepL positions d x
      (by simpa using (List.mem_filter.mp hx).2) acc
  rw [hcongr]
  cases hL : positions.filter (fun p => p.driver_number == d) with
  | nil => rfl
  | cons x rest =>
    rw [List.foldl_cons]
    have hinit : stepL (x :: rest) none x = some x.position := rfl
    rw [hinit]
    have := stepL_foldl_sorted (x :: rest) (hL ▸ hsorted) rest [x]
      (by simp) (by simp)
    simpa using this

/-- The session record list of the final-classification counterexample:
four samples of driver 1, deliberately out of chronological order. -/
def cexPositions : List Position :=
  [⟨1, 5, 0⟩, ⟨1, 7, 10⟩, ⟨1, 5, 20⟩, ⟨1, 9, 5⟩]

/-- Follows the spec's words: the position value of the driver's
chronologically latest position sample in the session. -/
def latestSamplePositionSpec (positions : List Position) (d : Nat) :
    Option Nat :=
  ((positions.filter (fun p => p.driver_number == d)).foldl
    (fun acc p =>
      match acc with
      | none => some p
      | some q => if q.date < p.date then some p else acc) none).map
    (·.position)

/-- C3 counterexample: on this input ordering the scan scores driver 1
with position 9, while the chronologically latest sample (date 20) has
position 5 — the final classification used for scoring is not the latest
sample's position for every input ordering. -/
theorem finalPositions_not_latest :
    mapGet (finalPositions cexPositions) 1 = some 9 ∧
    latestSamplePositionSpec cexPositions 1 = some 5 ∧ (9 : Nat) ≠ 5 := by
  refine ⟨by decide, by decide, by decide⟩

/-! ## Theorems: standings ranking (C4) -/

/-- Unfolding the comparator on two number-valued points. -/
theorem standingsLe_num_num (a wa poa b wb pob : Nat) :
    standingsLe (JsNum.num a) wa poa (JsNum.num b) wb pob =
      decide (b < a ∨ (a = b ∧ (wb < wa ∨ (wa = wb ∧ pob ≤ poa)))) :=
  rfl

/-- `NaN` points on the left: always a tie. -/
theorem standingsLe_nan_left (wa poa : Nat) (pb : JsNum) (wb pob : Nat) :
    standingsLe JsNum.nan wa poa pb wb pob = true := by
  cases pb <;> rfl

/-- `NaN` points on the right: always a tie. -/
theorem standingsLe_nan_right (pa : JsNum) (wa poa wb pob : Nat) :
    standingsLe pa wa poa JsNum.nan wb pob = true := by
  cases pa <;> rfl

/-- The comparator is transitive on rows whose points are actual
numbers. -/
theorem standingsLe_trans_num (pa wa poa pb wb pob pc wc poc : Nat)
    (hab : standingsLe (JsNum.num pa) wa poa (JsNum.num pb) wb pob = true)
    (hbc : standingsLe (JsNum.num pb) wb pob (JsNum.num pc) wc poc = true) :
    standingsLe (JsNum.num pa) wa poa (JsNum.num pc) wc poc = true := by
  rw [standingsLe_num_num, decide_eq_true_eq] at hab hbc ⊢
  omega

/-- The comparator is total (`NaN` rows tie with everything). -/
theorem standingsLe_total (pa : JsNum) (wa poa : Nat) (pb : JsNum)
    (wb pob : Nat) :
    (standingsLe pa wa poa pb wb pob || standingsLe pb wb pob pa wa poa)
      = true := by
  cases pa with
  | nan => simp [standingsLe_nan_left]
  | num a =>
    cases pb with
    | nan => simp [standingsLe_nan_left]
    | num b =>
      rw [standingsLe_num_num, standingsLe_num_num, Bool.or_eq_true,
        decide_eq_true_eq, decide_eq_true_eq]
      omega

/-- `driverLe` totality. -/
theorem driverLe_total : ∀ a b : DriverStanding,
    (driverLe a b || driverLe b a) = true :=
  fun a b => standingsLe_total a.points a.wins a.podiums b.points b.wins
    b.podiums

/-- `constructorLe` totality. -/
theorem constructorLe_total : ∀ a b : ConstructorStanding,
    (constructorLe a b || constructorLe b a) = true :=
  fun a b => standingsLe_total a.points a.wins a.podiums b.points b.wins
    b.podiums

/-- `driverLe` transitivity on rows whose points are actual numbers. -/
theorem driverLe_trans_pred : ∀ a b c : DriverStanding,
    (∃ n, a.points = JsNum.num n) → (∃ n, b.points = JsNum.num n) →
    (∃ n, c.points = JsNum.num n) →
    driverLe a b = true → driverLe b c = true → driverLe a c = true := by
  rintro a b c ⟨na, hna⟩ ⟨nb, hnb⟩ ⟨nc, hnc⟩ hab hbc
  unfold driverLe at hab hbc ⊢
  rw [hna, hnb] at hab
  rw [hnb, hnc] at hbc
  rw [hna, hnc]
  exact standingsLe_trans_num na a.wins a.podiums nb b.wins b.podiums nc
    c.wins c.podiums hab hbc

/-- `constructorLe` transitivity on rows whose points are actual
numbers. -/
theorem constructorLe_trans_pred : ∀ a b c : ConstructorStanding,
    (∃ n, a.points = JsNum.num n) → (∃ n, b.points = JsNum.num n) →
    (∃ n, c.points = JsNum.num n) →
    constructorLe a b = true → constructorLe b c = true →
      constructorLe a c = true := by
  rintro a b c ⟨na, hna⟩ ⟨nb, hnb⟩ ⟨nc, hnc⟩ hab hbc
  unfold constructorLe at hab hbc ⊢
  rw [hna, hnb] at hab
  rw [hnb, hnc] at hbc
  rw [hna, hnc]
  exact standingsLe_trans_num na a.wins a.podiums nb b.wins b.podiums nc
    c.wins c.podiums hab hbc

/-- Inserting an element into a comparator-sorted list keeps it sorted
when every involved element satisfies a predicate on whose satisfiers the
comparator is transitive. -/
theorem sinsert_pairwise_pred {α : Type} (le : α → α → Bool) (P : α → Prop)
    (htrans : ∀ a b c : α, P a → P b → P c →
      le a b = true → le b c = true → le a c = true)
    (htotal : ∀ a b : α, (le a b || le b a) = true) (x : α) (hx : P x) :
    ∀ l : List α, (∀ y ∈ l, P y) →
      l.Pairwise (fun a b => le a b = true) →
      (sinsert le x l).Pairwise (fun a b => le a b = true)
  | [], _, _ => by simp [sinsert]
  | y :: ys, hP, h => by
    rw [List.pairwise_cons] at h
    unfold sinsert
    by_cases hxy : le x y
    · rw [if_pos hxy, List.pairwise_cons]
      refine ⟨?_, List.pairwise_cons.mpr h⟩
      intro z hz
      rcases List.mem_cons.mp hz with rfl | hz2
      · exact hxy
      · exact htrans x y z hx (hP y (by simp)) (hP z (by simp [hz2]))
          hxy (h.1 z hz2)
    · rw [if_neg hxy, List.pairwise_cons]
      have hyx : le y x = true := by
        have htot := htotal x y
        rw [Bool.or_eq_true] at htot
        rcases htot with h2 | h2
        · exact absurd h2 hxy
        · exact h2
      refine ⟨?_, sinsert_pairwise_pred le P htrans htotal x hx ys
        (fun z hz => hP z (by simp [hz])) h.2⟩
      intro z hz
      rcases List.mem_cons.mp ((sinsert_perm le x ys).mem_iff.mp hz) with
        rfl | hz3
      · exact hyx
      · exact h.1 z hz3

/-- The sort sorts any list all of whose elements satisfy a predicate on
whose satisfiers the comparator is transitive. -/
theorem stableSort_pairwise_pred {α : Type} (le : α → α → Bool)
    (P : α → Prop)
    (htrans : ∀ a b c : α, P a → P b → P c →
      le a b = true → le b c = true → le a c = true)
    (htotal : ∀ a b : α, (le a b || le b a) = true) :
    ∀ l : List α, (∀ y ∈ l, P y) →
      (stableSort le l).Pairwise (fun a b => le a b = true)
  | [], _ => List.Pairwise.nil
  | x :: xs, hP =>
    sinsert_pairwise_pred le P htrans htotal x (hP x (by simp))
      (stableSort le xs)
      (fun y hy => hP y (List.mem_cons_of_mem x
        ((mem_stableSort le y xs).mp hy)))
      (stableSort_pairwise_pred le P htrans htotal xs
        (fun y hy => hP y (by simp [hy])))

/-- Members of a map after `mapSet` are the new pair or old members. -/
theorem mem_mapSet {K V : Type} [DecidableEq K] (m : List (K × V)) (k : K)
    (v : V) : ∀ e ∈ mapSet m k v, e = (k, v) ∨ e ∈ m := by
  unfold mapSet
  split
  · intro e he
    rw [List.mem_map] at he
    obtain ⟨e0, he0, rfl⟩ := he
    by_cases h : e0.1 = k
    · rw [if_pos h]
      exact Or.inl rfl
    · rw [if_neg h]
      exact Or.inr he0
  · intro e he
    rcases List.mem_append.mp he with h | h
    · exact Or.inr h
    · exact Or.inl (by simpa using h)

/-- A looked-up value is some member's value. -/
theorem mapGet_mem {K V : Type} [DecidableEq K] (m : List (K × V)) (k : K)
    (v : V) (h : mapGet m k = some v) : ∃ e ∈ m, e.2 = v := by
  unfold mapGet at h
  cases hf : m.find? (fun e => e.1 = k) with
  | none => rw [hf] at h; exact absurd h (by simp)
  | some e =>
    rw [hf] at h
    exact ⟨e, List.mem_of_find?_eq_some hf, by simpa using h⟩

/-- Each member of the scan's output after one step is the processed
record's pair or an existing member. -/
theorem finalPositionsStep_mem (P : List Position)
    (acc : List (Nat × Nat)) (pos : Position) :
    ∀ e ∈ finalPositionsStep P acc pos,
      e = (pos.driver_number, pos.position) ∨ e ∈ acc := by
  intro e he
  unfold finalPositionsStep at he
  split at he
  · exact mem_mapSet _ _ _ e he
  · split at he
    · exact mem_mapSet _ _ _ e he
    · split at he
      · split at he
        · exact mem_mapSet _ _ _ e he
        · exact Or.inr he
      · exact Or.inr he

/-- Every final-classification value is some record's position. -/
theorem finalPositions_values (P : List Position) :
    ∀ e ∈ finalPositions P, ∃ p ∈ P, e.2 = p.position := by
  have hgen : ∀ (l : List Position) (acc : List (Nat × Nat)),
      (∀ x ∈ l, x ∈ P) → (∀ e ∈ acc, ∃ p ∈ P, e.2 = p.position) →
      ∀ e ∈ l.foldl (finalPositionsStep P) acc, ∃ p ∈ P, e.2 = p.position := by
    intro l
    induction l with
    | nil => exact fun acc _ hacc => hacc
    | cons x xs ih =>
      intro acc hl hacc
      rw [List.foldl_cons]
      refine ih _ (fun y hy => hl y (by simp [hy])) ?_
      intro e he
      rcases finalPositionsStep_mem P acc x e he with rfl | hmem
      · exact ⟨x, hl x (by simp), rfl⟩
      · exact hacc e hmem
  exact hgen P [] (fun x hx => hx) (fun e he => absurd he (List.not_mem_nil e))

/-- All accumulated points (driver and constructor side) are actual
numbers, not `NaN`. -/
def statsNum (st : Stats) : Prop :=
  (∀ e ∈ st.driverStats, ∃ n, e.2.points = JsNum.num n) ∧
  (∀ e ∈ st.constructorStats, ∃ n, e.2.points = JsNum.num n)

/-- The empty accumulator has no `NaN`. -/
theorem emptyStats_statsNum : statsNum emptyStats :=
  ⟨fun e he => absurd he (List.not_mem_nil e),
    fun e he => absurd he (List.not_mem_nil e)⟩

/-- A nonzero position scores an actual number of points. -/
theorem pointsFor_num (v : Nat) (hv : v ≠ 0) :
    ∃ n, pointsFor v = JsNum.num n := by
  unfold pointsFor
  by_cases h1 : v ≤ pointsSystem.length
  · rw [if_pos h1, if_neg hv]
    exact ⟨_, rfl⟩
  · rw [if_neg h1]
    exact ⟨0, rfl⟩

/-- Awarding an entry with nonzero position keeps all points numbers. -/
theorem awardEntry_statsNum (drivers : List Driver) (st : Stats)
    (entry : Nat × Nat) (hv : entry.2 ≠ 0) (h : statsNum st) :
    statsNum (awardEntry drivers st entry) := by
  obtain ⟨np, hnp⟩ := pointsFor_num entry.2 hv
  simp only [awardEntry]
  cases hfind : drivers.find? (fun d => d.driver_number == entry.1) with
  | none => exact h
  | some driver =>
    constructor
    · intro e he
      rcases mem_mapSet _ _ _ e he with rfl | hmem
      · rw [hnp]
        cases hget : mapGet st.driverStats entry.1 with
        | none => exact ⟨0 + np, by simp [hget, JsNum.add]⟩
        | some v =>
          obtain ⟨e0, he0, hev⟩ := mapGet_mem _ _ _ hget
          obtain ⟨nv, hnv⟩ := h.1 e0 he0
          refine ⟨nv + np, ?_⟩
          simp only [hget, Option.getD_some]
          rw [← hev, hnv]
          rfl
      · exact h.1 e hmem
    · intro e he
      rcases mem_mapSet _ _ _ e he with rfl | hmem
      · rw [hnp]
        cases hget : mapGet st.constructorStats driver.team_name with
        | none => exact ⟨0 + np, by simp [hget, JsNum.add]⟩
        | some v =>
          obtain ⟨e0, he0, hev⟩ := mapGet_mem _ _ _ hget
          obtain ⟨nv, hnv⟩ := h.2 e0 he0
          refine ⟨nv + np, ?_⟩
          simp only [hget, Option.getD_some]
          rw [← hev, hnv]
          rfl
      · exact h.2 e hmem

/-- Awarding a list of entries with nonzero positions keeps all points
numbers. -/
theorem foldl_awardEntry_statsNum (drivers : List Driver) :
    ∀ (entries : List (Nat × Nat)) (st : Stats),
      (∀ e ∈ entries, e.2 ≠ 0) → statsNum st →
      statsNum (entries.foldl (awardEntry drivers) st)
  | [], _, _, h => h
  | e :: rest, st, hv, h =>
    foldl_awardEntry_statsNum drivers rest _
      (fun x hx => hv x (List.mem_cons_of_mem e hx))
      (awardEntry_statsNum drivers st e (hv e (List.mem_cons_self e rest)) h)

/-- A session whose position records are all nonzero keeps all points
numbers. -/
theorem processSession_statsNum (st : Stats) (data : RaceData)
    (hpos : ∀ p ∈ data.positions, p.position ≠ 0) (h : statsNum st) :
    statsNum (processSession st data) := by
  unfold processSession
  refine foldl_awardEntry_statsNum data.drivers _ st ?_ h
  intro e he
  obtain ⟨p, hp, hep⟩ := finalPositions_values data.positions e he
  rw [hep]
  exact hpos p hp

/-- A season all of whose position records are nonzero keeps all points
numbers. -/
theorem processSessions_statsNum :
    ∀ (sessions : List (Except String RaceData)) (st : Stats),
      (∀ r ∈ sessions, ∀ p ∈ sessionPositions r, p.position ≠ 0) →
      statsNum st → statsNum (processSessions st sessions)
  | [], _, _, h => h
  | r :: rest, st, hpos, h => by
    cases r with
    | ok data =>
      show statsNum (processSessions (processSession st data) rest)
      exact processSessions_statsNum rest _
        (fun x hx => hpos x (List.mem_cons_of_mem _ hx))
        (processSession_statsNum st data
          (hpos (Except.ok data) (List.mem_cons_self _ _)) h)
    | error e =>
      show statsNum (processSessions st rest)
      exact processSessions_statsNum rest _
        (fun x hx => hpos x (List.mem_cons_of_mem _ hx)) h

/-- Pre-sort driver rows carry number points when the statistics do. -/
theorem unrankedDrivers_points (st : Stats) (h : statsNum st) :
    ∀ r ∈ unrankedDrivers st, ∃ n, r.points = JsNum.num n := by
  intro r hr
  unfold unrankedDrivers at hr
  rw [List.mem_map] at hr
  obtain ⟨e, he, rfl⟩ := hr
  exact h.1 e he

/-- Pre-sort constructor rows carry number points when the statistics
do. -/
theorem unrankedConstructors_points (st : Stats) (h : statsNum st) :
    ∀ r ∈ unrankedConstructors st, ∃ n, r.points = JsNum.num n := by
  intro r hr
  unfold unrankedConstructors at hr
  rw [List.mem_map] at hr
  obtain ⟨e, he, rfl⟩ := hr
  exact h.2 e he

/-- Reindexing with 1-based ranks preserves pairwise comparator facts
(the comparator never reads `position`). -/
theorem pairwise_rank_of_pairwise_sorted (st : Stats)
    (h : (sortedDrivers st).Pairwise (fun a b => driverLe a b = true)) :
    (rankDrivers st).Pairwise (fun a b => driverLe a b = true) := by
  unfold rankDrivers
  rw [List.pairwise_map]
  have h2 : ((sortedDrivers st).enum.map Prod.snd).Pairwise
      (fun a b => driverLe a b = true) := by
    rw [List.enum_map_snd]
    exact h
  rw [List.pairwise_map] at h2
  exact h2.imp (fun {p q} hle => hle)

/-- The constructor-side analogue. -/
theorem pairwise_rankC_of_pairwise_sorted (st : Stats)
    (h : (sortedConstructors st).Pairwise
      (fun a b => constructorLe a b = true)) :
    (rankConstructors st).Pairwise (fun a b => constructorLe a b = true) := by
  unfold rankConstructors
  rw [List.pairwise_map]
  have h2 : ((sortedConstructors st).enum.map Prod.snd).Pairwise
      (fun a b => constructorLe a b = true) := by
    rw [List.enum_map_snd]
    exact h
  rw [List.pairwise_map] at h2
  exact h2.imp (fun {p q} hle => hle)

/-- C4 (amended): provided every position record of every successfully
fetched session is nonzero (positions are 1-based in the API data), both
returned standings lists are sorted descending by points, then wins, then
podiums; rows equal on all three sort keys keep their pre-sort
(accumulation-map insertion) relative order, since the sort is stable and
the comparator has no further tie-break; and every row's `position` field
is its 1-based index in the sorted list.  Without that proviso a
position-0 record makes the program read `pointsSystem[-1] = undefined`,
the accumulated points become `NaN`, every comparison involving that row
is a tie, and the returned order need not be sorted by points (see the
counterexample). -/
theorem standings_sorted_stable_ranked
    (sessions : List (Except String RaceData)) (now : Int)
    (hpos : ∀ r ∈ sessions, ∀ p ∈ sessionPositions r, p.position ≠ 0) :
    ((getChampionshipStandings sessions now).drivers.Pairwise
        (fun a b => driverLe a b = true) ∧
      (∀ a b : DriverStanding, a.points = b.points → a.wins = b.wins →
        a.podiums = b.podiums →
        [a, b].Sublist (unrankedDrivers (processSessions emptyStats sessions)) →
        [a, b].Sublist (sortedDrivers (processSessions emptyStats sessions))) ∧
      (∀ i (h : i < (getChampionshipStandings sessions now).drivers.length),
        ((getChampionshipStandings sessions now).drivers.get ⟨i, h⟩).position
          = i + 1)) ∧
    ((getChampionshipStandings sessions now).constructors.Pairwise
        (fun a b => constructorLe a b = true) ∧
      (∀ a b : ConstructorStanding, a.points = b.points → a.wins = b.wins →
        a.podiums = b.podiums →
        [a, b].Sublist
          (unrankedConstructors (processSessions emptyStats sessions)) →
        [a, b].Sublist
          (sortedConstructors (processSessions emptyStats sessions))) ∧
      (∀ i
        (h : i < (getChampionshipStandings sessions now).constructors.length),
        ((getChampionshipStandings sessions now).constructors.get
          ⟨i, h⟩).position = i + 1)) := by
  have hst : statsNum (processSessions emptyStats sessions) :=
    processSessions_statsNum sessions emptyStats hpos emptyStats_statsNum
  refine ⟨⟨?_, ?_, ?_⟩, ⟨?_, ?_, ?_⟩⟩
  · exact pairwise_rank_of_pairwise_sorted _
      (stableSort_pairwise_pred driverLe
        (fun r => ∃ n, r.points = JsNum.num n) driverLe_trans_pred
        driverLe_total _ (unrankedDrivers_points _ hst))
  · intro a b hp hw hpo hsub
    have hle : driverLe a b = true := by
      unfold driverLe
      cases hap : a.points with
      | nan => exact standingsLe_nan_left _ _ _ _ _
      | num n =>
        rw [← hp, hap, standingsLe_num_num, decide_eq_true_eq]
        omega
    exact pair_sublist_stableSort driverLe a b hle _ hsub
  · intro i h
    simp [getChampionshipStandings, rankDrivers, List.get_eq_getElem,
      List.getElem_map, List.getElem_enum]
  · exact pairwise_rankC_of_pairwise_sorted _
      (stableSort_pairwise_pred constructorLe
        (fun r => ∃ n, r.points = JsNum.num n) constructorLe_trans_pred
        constructorLe_total _ (unrankedConstructors_points _ hst))
  · intro a b hp hw hpo hsub
    have hle : constructorLe a b = true := by
      unfold constructorLe
      cases hap : a.points with
      | nan => exact standingsLe_nan_left _ _ _ _ _
      | num n =>
        rw [← hp, hap, standingsLe_num_num, decide_eq_true_eq]
        omega
    exact pair_sublist_stableSort constructorLe a b hle _ hsub
  · intro i h
    simp [getChampionshipStandings, rankConstructors, List.get_eq_getElem,
      List.getElem_map, List.getElem_enum]

/-- A driver classified 11th in the NaN counterexample (0 points). -/
def nanDriver1 : Driver := ⟨1, "NAA", "Na A", "TN1", "#0a0a0a"⟩

/-- The driver whose only position sample is 0 (points become `NaN`). -/
def nanDriver2 : Driver := ⟨2, "NBB", "Nb B", "TN2", "#0b0b0b"⟩

/-- The race winner of the NaN counterexample (25 points). -/
def nanDriver3 : Driver := ⟨3, "NCC", "Nc C", "TN3", "#0c0c0c"⟩

/-- One session: driver 1 classified 11th, driver 2 carrying a
position-0 sample, driver 3 winning. -/
def nanSessions : List (Except String RaceData) :=
  [Except.ok ⟨[nanDriver1, nanDriver2, nanDriver3],
    [⟨1, 11, 0⟩, ⟨2, 0, 0⟩, ⟨3, 1, 0⟩]⟩]

/-- C4 counterexample: driver 2's position-0 sample reads
`pointsSystem[-1] = undefined` and poisons their points to `NaN`; every
comparison against that row is a tie, so the stable sort leaves the rows
in insertion order and the returned standings rank the 0-point driver 1
first and the 25-point driver 3 last — not sorted descending by
points. -/
theorem standings_nan_points_not_sorted :
    ((getChampionshipStandings nanSessions 0).drivers.map
      (fun r => (r.position, r.points))) =
      [(1, JsNum.num 0), (2, JsNum.nan), (3, JsNum.num 25)] := by
  decide

/-- A driver of the ranking witness. -/
def exDriver1 : Driver := ⟨1, "AAA", "A A", "T1", "#101010"⟩

/-- A second driver of the ranking witness, tied on all sort keys. -/
def exDriver2 : Driver := ⟨2, "BBB", "B B", "T2", "#202020"⟩

/-- One race session in which both witness drivers finish outside the
points (a tie on points, wins and podiums), with 1-based positions
only. -/
def exSessions : List (Except String RaceData) :=
  [Except.ok ⟨[exDriver1, exDriver2], [⟨1, 11, 0⟩, ⟨2, 12, 0⟩]⟩]

/-- The first witness driver's pre-sort standings row. -/
def exRow1 : DriverStanding :=
  { position := 0, driver_number := 1, name_acronym := "AAA",
    full_name := "A A", team_name := "T1", team_colour := "#101010",
    points := JsNum.num 0, wins := 0, podiums := 0 }

/-- The second witness driver's pre-sort standings row. -/
def exRow2 : DriverStanding :=
  { position := 0, driver_number := 2, name_acronym := "BBB",
    full_name := "B B", team_name := "T2", team_colour := "#202020",
    points := JsNum.num 0, wins := 0, podiums := 0 }

/-- Witness for the ranking theorem at the concrete tied season: the two
tied rows keep their insertion order through the stable sort, and the
first returned row carries position 1. -/
theorem standings_sorted_stable_ranked_witness :
    [exRow1, exRow2].Sublist
        (sortedDrivers (processSessions emptyStats exSessions)) ∧
    ((getChampionshipStandings exSessions 0).drivers.get
        ⟨0, by decide⟩).position = 0 + 1 :=
  ⟨(standings_sorted_stable_ranked exSessions 0 (by decide)).1.2.1
      exRow1 exRow2 rfl rfl rfl (by decide),
    (standings_sorted_stable_ranked exSessions 0 (by decide)).1.2.2 0
      (by decide)⟩

/-- A chronologically ordered two-sample session for the sorted-input
witness. -/
def sortedPositionsEx : List Position := [⟨1, 5, 0⟩, ⟨1, 3, 10⟩]

/-- Witness: on a session whose samples are in strictly increasing date
order, the scan's final classification is the last sample's position. -/
theorem finalPositions_latest_of_sorted_witness :
    mapGet (finalPositions sortedPositionsEx) 1 =
      ((sortedPositionsEx.filter
        (fun p => p.driver_number == 1)).getLast?).map (·.position) :=
  finalPositions_latest_of_sorted sortedPositionsEx 1 (by decide)

/-! ## Theorems: unknown driver number (C10) -/

/-- A fold skips elements on which the step is the identity. -/
theorem foldl_skip {α β : Type} (f : β → α → β) (p : α → Bool) :
    ∀ (l : List α) (acc : β),
      (∀ x ∈ l, p x = false → ∀ a, f a x = a) →
      l.foldl f acc = (l.filter p).foldl f acc
  | [], _, _ => rfl
  | x :: l, acc, h => by
    by_cases hx : p x
    · rw [List.filter_cons_of_pos hx]
      simp only [List.foldl_cons]
      exact foldl_skip f p l (f acc x) (fun y hy => h y (by simp [hy]))
    · rw [List.filter_cons_of_neg (by simpa using hx)]
      simp only [List.foldl_cons]
      rw [h x (by simp) (by simpa using hx) acc]
      exact foldl_skip f p l acc (fun y hy => h y (by simp [hy]))

/-- Awarding an entry whose driver number has no driver record is the
identity (`if (!driver) return`). -/
theorem awardEntry_unknown (drivers : List Driver) (st : Stats)
    (entry : Nat × Nat) (hd : ∀ dr ∈ drivers, dr.driver_number ≠ entry.1) :
    awardEntry drivers st entry = st := by
  have hfind : drivers.find? (fun dr => dr.driver_number == entry.1) = none :=
    List.find?_eq_none.mpr (fun dr hdr => by simpa using hd dr hdr)
  simp only [awardEntry, hfind]

/-- Awarding an entry of another driver leaves a driver's stats entry
untouched. -/
theorem mapGet_awardEntry_other (drivers : List Driver) (st : Stats)
    (entry : Nat × Nat) (d : Nat) (hne : entry.1 ≠ d) :
    mapGet (awardEntry drivers st entry).driverStats d =
      mapGet st.driverStats d := by
  simp only [awardEntry]
  cases hfind : drivers.find? (fun dr => dr.driver_number == entry.1) with
  | none => rfl
  | some driver => exact mapGet_mapSet_ne _ _ _ _ (fun h => hne h.symm)

/-- C10: when a driver number occurs in a session's position records but
not in its driver list, the session awards nothing on that number's
account — every final-positions entry of that number is skipped outright
(so neither the driver nor any constructor receives points, wins or
podiums from it, and no error is raised), and the number's entry in the
accumulated driver statistics is exactly what it was before the
session. -/
theorem session_unknown_driver_awards_nothing (drivers : List Driver)
    (positions : List Position) (st : Stats) (d : Nat)
    (hocc : ∃ p ∈ positions, p.driver_number = d)
    (hd : ∀ dr ∈ drivers, dr.driver_number ≠ d) :
    processSession st ⟨drivers, positions⟩ =
      ((finalPositions positions).filter (fun e => !(e.1 == d))).foldl
        (awardEntry drivers) st ∧
    mapGet (processSession st ⟨drivers, positions⟩).driverStats d =
      mapGet st.driverStats d := by
  constructor
  · unfold processSession
    apply foldl_skip
    intro e _ he a
    apply awardEntry_unknown
    intro dr hdr
    have : e.1 = d := by simpa using he
    exact this ▸ hd dr hdr
  · unfold processSession
    generalize finalPositions positions = entries
    induction entries generalizing st with
    | nil => rfl
    | cons e rest ih =>
      simp only [List.foldl_cons]
      by_cases he : e.1 = d
      · rw [awardEntry_unknown drivers st e
          (fun dr hdr => he ▸ hd dr hdr)]
        exact ih st
      · rw [ih (awardEntry drivers st e)]
        exact mapGet_awardEntry_other drivers st e d he

/-- An unknown race winner: driver 2 appears only in the position
records. -/
def unknownWinnerPositions : List Position := [⟨2, 1, 0⟩]

/-- Witness: with only driver 1 registered, driver 2's winning position
record awards nothing and driver 2 stays absent from the statistics. -/
theorem session_unknown_driver_awards_nothing_witness :
    processSession emptyStats ⟨[exDriver1], unknownWinnerPositions⟩ =
      ((finalPositions unknownWinnerPositions).filter
        (fun e => !(e.1 == 2))).foldl (awardEntry [exDriver1]) emptyStats ∧
    mapGet (processSession emptyStats
        ⟨[exDriver1], unknownWinnerPositions⟩).driverStats 2 =
      mapGet emptyStats.driverStats 2 :=
  session_unknown_driver_awards_nothing [exDriver1] unknownWinnerPositions
    emptyStats 2 ⟨⟨2, 1, 0⟩, by decide, rfl⟩ (by decide)

/-! ## Theorems: replay frame loop infrastructure -/

/-- Reading the state map at the updated key. -/
theorem updateState_same (st : Nat → DState) (k : Nat) (v : DState) :
    updateState st k v k = v := by
  simp [updateState]

/-- Reading the state map at another key. -/
theorem updateState_other (st : Nat → DState) (k : Nat) (v : DState)
    (k' : Nat) (h : k' ≠ k) : updateState st k v k' = st k' := by
  simp [updateState, h]

/-- Applying a completion never changes a driver's baseline-progress
floor. -/
theorem applyCompletion_baseline (laps : List Lap) (ct : ℚ)
    (st : Nat → DState) (c : Completion) (k : Nat) :
    ((applyCompletion laps ct st c) k).baseline_progress =
      (st k).baseline_progress := by
  unfold applyCompletion
  by_cases hts : (c.timestamp : ℚ) ≤ ct
  · rw [if_pos hts]
    by_cases hlap : (st c.driver_number).lap_number < c.lap_number
    · rw [if_pos hlap]
      by_cases hk : k = c.driver_number
      · subst hk
        rw [updateState_same]
      · rw [updateState_other _ _ _ _ hk]
    · rw [if_neg hlap]
  · rw [if_neg hts]

/-- Folding any completion list never changes a baseline floor. -/
theorem foldl_applyCompletion_baseline (laps : List Lap) (ct : ℚ) :
    ∀ (cs : List Completion) (st : Nat → DState) (k : Nat),
      ((cs.foldl (applyCompletion laps ct) st) k).baseline_progress =
        (st k).baseline_progress
  | [], _, _ => rfl
  | c :: cs, st, k => by
    rw [List.foldl_cons, foldl_applyCompletion_baseline laps ct cs _ k,
      applyCompletion_baseline]

/-- `qmax` dominates its first argument. -/
theorem le_qmax_left (a b : ℚ) : a ≤ qmax a b := by
  unfold qmax
  split
  · assumption
  · exact le_refl a

/-- `qmax` dominates its second argument. -/
theorem le_qmax_right (a b : ℚ) : b ≤ qmax a b := by
  unfold qmax
  split
  · exact le_refl b
  · linarith

/-- `qmax` is monotone in its first argument. -/
theorem qmax_le_qmax_left (a b c : ℚ) (h : a ≤ b) : qmax a c ≤ qmax b c := by
  unfold qmax
  split <;> split <;> linarith

/-- One pass step never lowers any driver's baseline floor. -/
theorem framePass_baseline_mono (tl iv i : Nat) (ct : ℚ) (laps : List Lap) :
    ∀ (fds : List Driver) (st : Nat → DState) (k : Nat),
      (st k).baseline_progress ≤
        ((framePass tl iv i ct laps fds st).2 k).baseline_progress
  | [], _, _ => le_refl _
  | dr :: rest, st, k => by
    unfold framePass
    have hstep :
        (st k).baseline_progress ≤
          ((updateState st dr.driver_number
            { st dr.driver_number with
              baseline_progress :=
                qmax (st dr.driver_number).baseline_progress
                  (computedProgress tl iv i (st dr.driver_number)) }) k).baseline_progress := by
      by_cases hk : k = dr.driver_number
      · subst hk
        rw [updateState_same]
        exact le_qmax_left _ _
      · rw [updateState_other _ _ _ _ hk]
    exact hstep.trans (framePass_baseline_mono tl iv i ct laps rest _ k)

/-- Every row's progress is at least the driver's incoming baseline floor
(and at least 0.01). -/
theorem framePass_entry_lower (tl iv i : Nat) (ct : ℚ) (laps : List Lap) :
    ∀ (fds : List Driver) (st : Nat → DState),
      ∀ e ∈ (framePass tl iv i ct laps fds st).1,
        qmax ((st e.driver_number).baseline_progress) (1 / 100) ≤ e.progress
  | [], _, e, he => absurd he (List.not_mem_nil e)
  | dr :: rest, st, e, he => by
    unfold framePass at he
    rcases List.mem_cons.mp he with rfl | hrest
    · simp only
      exact qmax_le_qmax_left _ _ _ (le_qmax_left _ _)
    · have hmono :
          (st e.driver_number).baseline_progress ≤
            ((updateState st dr.driver_number
              { st dr.driver_number with
                baseline_progress :=
                  qmax (st dr.driver_number).baseline_progress
                    (computedProgress tl iv i (st dr.driver_number)) })
              e.driver_number).baseline_progress := by
        by_cases hk : e.driver_number = dr.driver_number
        · rw [hk, updateState_same]
          exact le_qmax_left _ _
        · rw [updateState_other _ _ _ _ hk]
      exact (qmax_le_qmax_left _ _ _ hmono).trans
        (framePass_entry_lower tl iv i ct laps rest _ e hrest)

/-- Every row's progress is at most the driver's final baseline floor
capped below by 0.01. -/
theorem framePass_entry_upper (tl iv i : Nat) (ct : ℚ) (laps : List Lap) :
    ∀ (fds : List Driver) (st : Nat → DState),
      ∀ e ∈ (framePass tl iv i ct laps fds st).1,
        e.progress ≤
          qmax (((framePass tl iv i ct laps fds st).2
            e.driver_number).baseline_progress) (1 / 100)
  | [], _, e, he => absurd he (List.not_mem_nil e)
  | dr :: rest, st, e, he => by
    unfold framePass at he ⊢
    rcases List.mem_cons.mp he with rfl | hrest
    · simp only
      have hb :
          qmax (st dr.driver_number).baseline_progress
              (computedProgress tl iv i (st dr.driver_number)) ≤
            ((framePass tl iv i ct laps rest
              (updateState st dr.driver_number
                { st dr.driver_number with
                  baseline_progress :=
                    qmax (st dr.driver_number).baseline_progress
                      (computedProgress tl iv i (st dr.driver_number)) })).2
              dr.driver_number).baseline_progress := by
        have := framePass_baseline_mono tl iv i ct laps rest
          (updateState st dr.driver_number
            { st dr.driver_number with
              baseline_progress :=
                qmax (st dr.driver_number).baseline_progress
                  (computedProgress tl iv i (st dr.driver_number)) })
          dr.driver_number
        rwa [updateState_same] at this
      exact qmax_le_qmax_left _ _ _ hb
    · exact framePass_entry_upper tl iv i ct laps rest _ e hrest

/-- Frame-level lower bound: a row's progress is at least the incoming
baseline floor, which the completion fold does not alter. -/
theorem mkFrame_entry_lower (inp : ReplayInput) (i : Nat)
    (st : Nat → DState) :
    ∀ e ∈ (mkFrame inp i st).1.positions,
      qmax ((st e.driver_number).baseline_progress) (1 / 100) ≤ e.progress := by
  intro e he
  have he' : e ∈ (framePassAt inp i st).1 :=
    (mem_stableSort _ e _).mp he
  have := framePass_entry_lower (maxLap inp.laps) (timeIntervals inp) i
    (frameCT inp i) inp.laps (finishingDrivers inp.drivers inp.laps)
    (frameStates2 inp i st) e he'
  rwa [show frameStates2 inp i st = (allLapCompletions inp).foldl
      (applyCompletion inp.laps (frameCT inp i)) st from rfl,
    foldl_applyCompletion_baseline] at this

/-- Frame-level upper bound: a row's progress is at most the outgoing
baseline floor capped below at 0.01. -/
theorem mkFrame_entry_upper (inp : ReplayInput) (i : Nat)
    (st : Nat → DState) :
    ∀ e ∈ (mkFrame inp i st).1.positions,
      e.progress ≤
        qmax (((mkFrame inp i st).2 e.driver_number).baseline_progress)
          (1 / 100) := by
  intro e he
  have he' : e ∈ (framePassAt inp i st).1 :=
    (mem_stableSort _ e _).mp he
  exact framePass_entry_upper (maxLap inp.laps) (timeIntervals inp) i
    (frameCT inp i) inp.laps (finishingDrivers inp.drivers inp.laps)
    (frameStates2 inp i st) e he'

/-- Consecutive frames of the loop relate by per-driver progress
monotonicity. -/
theorem frameLoop_chain (inp : ReplayInput) :
    ∀ (n i : Nat) (st : Nat → DState),
      List.Chain'
        (fun f g => ∀ e ∈ f.positions, ∀ e' ∈ g.positions,
          e.driver_number = e'.driver_number → e.progress ≤ e'.progress)
        (frameLoop inp n i st)
  | 0, _, _ => List.chain'_nil
  | n + 1, i, st => by
    unfold frameLoop
    apply List.Chain'.cons' (frameLoop_chain inp n (i + 1) (mkFrame inp i st).2)
    intro g hg e he e' he' hnum
    have hle := mkFrame_entry_upper inp i st e he
    cases n with
    | zero => simp [frameLoop] at hg
    | succ m =>
      have hghead' : (mkFrame inp (i + 1) (mkFrame inp i st).2).1 = g := by
        simpa [frameLoop] using hg
      have hghead : g = (mkFrame inp (i + 1) (mkFrame inp i st).2).1 :=
        hghead'.symm
      have hge := mkFrame_entry_lower inp (i + 1) (mkFrame inp i st).2 e'
        (hghead ▸ he')
      rw [← hnum] at hge
      exact hle.trans hge

/-- Every row of every frame has progress at least 0.01. -/
theorem frameLoop_bound (inp : ReplayInput) :
    ∀ (n i : Nat) (st : Nat → DState),
      ∀ f ∈ frameLoop inp n i st, ∀ e ∈ f.positions, 1 / 100 ≤ e.progress
  | 0, _, _, f, hf => absurd hf (List.not_mem_nil f)
  | n + 1, i, st, f, hf => by
    unfold frameLoop at hf
    rcases List.mem_cons.mp hf with rfl | hrest
    · intro e he
      exact (le_qmax_right _ _).trans (mkFrame_entry_lower inp i st e he)
    · exact frameLoop_bound inp n (i + 1) (mkFrame inp i st).2 f hrest

/-- C2: across the frame sequence produced by `processRaceData`, a
driver's stored progress never decreases from one frame to the next, and
every stored progress is clamped to at least 0.01. -/
theorem replay_progress_monotone (inp : ReplayInput) :
    List.Chain'
      (fun f g => ∀ e ∈ f.positions, ∀ e' ∈ g.positions,
        e.driver_number = e'.driver_number → e.progress ≤ e'.progress)
      (processRaceData inp) ∧
    ∀ f ∈ processRaceData inp, ∀ e ∈ f.positions, 1 / 100 ≤ e.progress :=
  ⟨frameLoop_chain inp _ 0 _, frameLoop_bound inp _ 0 _⟩

/-! ## Theorems: frame position values (C1) -/

/-- Comparator of the per-frame position sort: transitivity. -/
theorem entryPosLe_trans : ∀ a b c : Entry,
    (fun a b : Entry => (a.position ≤ b.position : Bool)) a b = true →
    (fun a b : Entry => (a.position ≤ b.position : Bool)) b c = true →
    (fun a b : Entry => (a.position ≤ b.position : Bool)) a c = true := by
  intro a b c hab hbc
  simp only [decide_eq_true_eq] at hab hbc ⊢
  omega

/-- Comparator of the per-frame position sort: totality. -/
theorem entryPosLe_total : ∀ a b : Entry,
    ((fun a b : Entry => (a.position ≤ b.position : Bool)) a b ||
      (fun a b : Entry => (a.position ≤ b.position : Bool)) b a) = true := by
  intro a b
  simp only [Bool.or_eq_true, decide_eq_true_eq]
  omega

/-- Every frame the loop emits lists its rows in ascending position
order. -/
theorem frameLoop_sorted (inp : ReplayInput) :
    ∀ (n i : Nat) (st : Nat → DState),
      ∀ f ∈ frameLoop inp n i st,
        f.positions.Pairwise (fun a b => a.position ≤ b.position)
  | 0, _, _, f, hf => absurd hf (List.not_mem_nil f)
  | n + 1, i, st, f, hf => by
    unfold frameLoop at hf
    rcases List.mem_cons.mp hf with rfl | hrest
    · have hs := stableSort_pairwise
        (fun a b : Entry => (a.position ≤ b.position : Bool))
        entryPosLe_trans entryPosLe_total (framePassAt inp i st).1
      exact hs.imp (fun h => of_decide_eq_true h)
    · exact frameLoop_sorted inp n (i + 1) (mkFrame inp i st).2 f hrest

/-- C1 (amended): in every frame of `processRaceData`, the rows are
listed in ascending order of their position values; the values themselves
are the drivers' current attached positions (position sample, else
qualifying grid, else driver number) and need not form a permutation of
1..N. -/
theorem frame_positions_sorted (inp : ReplayInput) :
    ∀ f ∈ processRaceData inp,
      f.positions.Pairwise (fun a b => a.position ≤ b.position) :=
  frameLoop_sorted inp _ 0 _

/-- A single finishing driver whose number is 7 (no qualifying data, no
position samples). -/
def soloDriver : Driver := ⟨7, "SOL", "So Lo", "TS", "#707070"⟩

/-- Four completed laps for the solo driver. -/
def soloLaps : List Lap :=
  [⟨7, 1, some 60, none, none, none, 0, false⟩,
   ⟨7, 2, some 60, none, none, none, 60000, false⟩,
   ⟨7, 3, some 60, none, none, none, 120000, false⟩,
   ⟨7, 4, some 60, none, none, none, 180000, false⟩]

/-- The solo-driver replay input. -/
def exInput1 : ReplayInput := ⟨[soloDriver], [], soloLaps, [], [], 0⟩

/-- C1 counterexample: with one eligible driver numbered 7 and no
position samples or grid data, a frame of the output carries position 7
in its single row — not the permutation {1} of 1..N the claim requires
for every frame. -/
theorem frame_positions_not_permutation :
    ∃ f ∈ processRaceData exInput1,
      ¬ (f.positions.map (fun e => e.position)).Perm
        (List.range' 1 f.positions.length) := by
  with_unfolding_all decide

/-- Witness: the first frame of the solo-driver input is sorted by
position. -/
theorem frame_positions_sorted_witness :
    (((processRaceData exInput1).getD 0 default).positions).Pairwise
      (fun a b => a.position ≤ b.position) :=
  frame_positions_sorted exInput1 _ (by with_unfolding_all decide)

/-- Witness for progress monotonicity: in the solo-driver run, the first
frame's single row has progress at least 0.01, and its progress does not
exceed the second frame's. -/
theorem replay_progress_monotone_witness :
    (1 : ℚ) / 100 ≤
      (((processRaceData exInput1).getD 0 default).positions.getD 0
        default).progress ∧
    (((processRaceData exInput1).get ⟨0, by decide⟩).positions.getD 0
        default).progress ≤
      (((processRaceData exInput1).get ⟨1, by decide⟩).positions.getD 0
        default).progress := by
  constructor
  · exact (replay_progress_monotone exInput1).2
      ((processRaceData exInput1).getD 0 default)
      (by with_unfolding_all decide) _ (by with_unfolding_all decide)
  · have hc := (replay_progress_monotone exInput1).1
    rw [List.chain'_iff_get] at hc
    exact hc 0 (by decide) _ (by with_unfolding_all decide) _
      (by with_unfolding_all decide) (by with_unfolding_all decide)

/-! ## Theorems: frame time grid (C5) -/

/-- A `foldl max` is bounded below by its seed. -/
theorem le_foldl_max : ∀ (l : List Nat) (a : Nat), a ≤ l.foldl max a
  | [], a => le_refl a
  | x :: l, a => le_trans (le_max_left a x) (le_foldl_max l (max a x))

/-- `Math.max(..., 1)` yields at least one lap. -/
theorem one_le_maxLap (laps : List Lap) : 1 ≤ maxLap laps :=
  le_foldl_max _ 1

/-- The frame grid always has at least two intervals. -/
theorem timeIntervals_pos (inp : ReplayInput) : 0 < timeIntervals inp := by
  have h := one_le_maxLap inp.laps
  unfold timeIntervals
  omega

/-- The loop emits exactly as many frames as it is asked for. -/
theorem frameLoop_length (inp : ReplayInput) :
    ∀ (n i : Nat) (st : Nat → DState), (frameLoop inp n i st).length = n
  | 0, _, _ => rfl
  | n + 1, i, st => by
    unfold frameLoop
    rw [List.length_cons, frameLoop_length inp n (i + 1) (mkFrame inp i st).2]

/-- Unfolding equation of the frame loop. -/
theorem frameLoop_succ (inp : ReplayInput) (n i : Nat) (st : Nat → DState) :
    frameLoop inp (n + 1) i st =
      (mkFrame inp i st).1 :: frameLoop inp n (i + 1) (mkFrame inp i st).2 :=
  rfl

/-- `processRaceData` unfolded to its frame loop. -/
theorem processRaceData_eq (inp : ReplayInput) :
    processRaceData inp =
      frameLoop inp (timeIntervals inp + 1) 0
        (initStates inp.grid (finishingDrivers inp.drivers inp.laps)) :=
  rfl

/-- The `j`-th emitted frame carries the `(i+j)`-th grid instant. -/
theorem frameLoop_get?_timestamp (inp : ReplayInput) :
    ∀ (n i : Nat) (st : Nat → DState) (j : Nat), j < n →
      ((frameLoop inp n i st).get? j).map Frame.timestamp =
        some (frameCT inp (i + j))
  | 0, _, _, j, h => absurd h (Nat.not_lt_zero j)
  | n + 1, i, st, 0, _ => rfl
  | n + 1, i, st, j + 1, h => by
    rw [frameLoop_succ, List.get?_cons_succ,
      frameLoop_get?_timestamp inp n (i + 1) (mkFrame inp i st).2 j
        (by omega)]
    exact congrArg (fun k => some (frameCT inp k)) (by omega)

/-- C5 (amended): `processRaceData` emits exactly
`min(2 × totalLaps, 100) + 1` frames — one more than the claimed
`frameCount`, since the loop bound is inclusive; the `j`-th frame's
timestamp is `startTime + j·timeStep`, so the timestamps are evenly
spaced from the first merged lap-completion timestamp (frame 0) to the
last one (final frame); when no lap completions exist the grid spans a
1-second window. -/
theorem frame_time_grid (inp : ReplayInput) :
    (processRaceData inp).length = min (maxLap inp.laps * 2) 100 + 1 ∧
    (∀ (j : Nat) (h : j < (processRaceData inp).length),
      ((processRaceData inp).get ⟨j, h⟩).timestamp =
        ((startTime inp : Int) : ℚ) + (j : ℚ) * timeStep inp) ∧
    (∀ (h : timeIntervals inp < (processRaceData inp).length),
      ((processRaceData inp).get ⟨timeIntervals inp, h⟩).timestamp =
        ((endTime inp : Int) : ℚ)) ∧
    (allLapCompletions inp = [] → endTime inp - startTime inp = 1000) := by
  have hget : ∀ (j : Nat) (h : j < (processRaceData inp).length),
      ((processRaceData inp).get ⟨j, h⟩).timestamp = frameCT inp j := by
    intro j h
    have hlen : (processRaceData inp).length = timeIntervals inp + 1 :=
      frameLoop_length inp _ 0 _
    have hq := frameLoop_get?_timestamp inp (timeIntervals inp + 1) 0
      (initStates inp.grid (finishingDrivers inp.drivers inp.laps)) j
      (by omega)
    rw [← processRaceData_eq, List.get?_eq_get h, Option.map_some',
      Nat.zero_add] at hq
    exact Option.some.inj hq
  refine ⟨frameLoop_length inp _ 0 _, ?_, ?_, ?_⟩
  · intro j h
    exact hget j h
  · intro h
    rw [hget (timeIntervals inp) h]
    unfold frameCT timeStep
    have hN : ((timeIntervals inp : Nat) : ℚ) ≠ 0 :=
      Nat.cast_ne_zero.mpr (Nat.pos_iff_ne_zero.mp (timeIntervals_pos inp))
    rw [mul_comm, div_mul_cancel₀ _ hN]
    push_cast
    ring
  · intro h
    unfold endTime startTime
    rw [h]
    simp

/-- C5 counterexample: the solo-driver input has `totalLaps = 4`, so the
claim demands `min(2·4, 100) = 8` frames, but the inclusive loop emits
9. -/
theorem frame_count_not_frameCount :
    (processRaceData exInput1).length ≠
      min (maxLap exInput1.laps * 2) 100 := by
  decide

/-- An input with no drivers and no laps (wall clock 5000). -/
def exInputEmpty : ReplayInput := ⟨[], [], [], [], [], 5000⟩

/-- Witness for the frame grid: first frame at `startTime`, final frame
at `endTime` on the solo-driver input, and the 1-second window on the
empty input. -/
theorem frame_time_grid_witness :
    ((processRaceData exInput1).get ⟨0, by decide⟩).timestamp =
      ((startTime exInput1 : Int) : ℚ) +
        ((0 : Nat) : ℚ) * timeStep exInput1 ∧
    ((processRaceData exInput1).get
        ⟨timeIntervals exInput1, by decide⟩).timestamp =
      ((endTime exInput1 : Int) : ℚ) ∧
    endTime exInputEmpty - startTime exInputEmpty = 1000 :=
  ⟨(frame_time_grid exInput1).2.1 0 (by decide),
    (frame_time_grid exInput1).2.2.1 (by decide),
    (frame_time_grid exInputEmpty).2.2.2 (by decide)⟩

/-! ## Theorems: position attached to lap completions (C7) -/

/-- Every completion the cumulative scan emits carries the attached
position computed from its own driver and lap-start timestamp. -/
theorem cumScan_position (positions : List Position)
    (grid : List (Nat × Nat)) (d : Nat) :
    ∀ (acc : ℚ) (ls : List Lap), ∀ c ∈ cumScan positions grid d acc ls,
      c.driver_number = d ∧
        c.position = attachedPosition positions grid d c.timestamp
  | _, [], c, hc => absurd hc (List.not_mem_nil c)
  | acc, l :: ls, c, hc => by
    unfold cumScan at hc
    rcases List.mem_cons.mp hc with rfl | hrest
    · exact ⟨rfl, rfl⟩
    · exact cumScan_position positions grid d _ ls c hrest

/-- C7 (amended): the position attached to each lap-completion event is
the `position` of the *first* sample in input-list order whose timestamp
is within the 60-second tolerance of the lap start (not the nearest in
time); when no sample is within tolerance (or the found sample's position
is the falsy 0), the qualifying-grid position is used, and the driver
number when no grid entry exists either. -/
theorem completion_position_first_in_window (inp : ReplayInput) :
    ∀ c ∈ allLapCompletions inp,
      c.position =
        attachedPosition inp.positions inp.grid c.driver_number
          c.timestamp := by
  intro c hc
  rw [allLapCompletions, mem_stableSort, List.mem_flatten] at hc
  obtain ⟨dl, hdl, hcdl⟩ := hc
  rw [List.mem_map] at hdl
  obtain ⟨dr, _, rfl⟩ := hdl
  unfold driverCompletions at hcdl
  have := cumScan_position inp.positions inp.grid dr.driver_number 0 _ c hcdl
  rw [← this.1] at this
  exact this.2

/-- Follows the spec's words: the position sample nearest in time to the
lap within a 60-second tolerance window (first such sample on a tie). -/
def nearestPositionSpec (positions : List Position) (d : Nat) (t : Int) :
    Option Nat :=
  ((positions.filter (fun p =>
      p.driver_number == d && (p.date - t).natAbs < 60000)).foldl
    (fun acc p =>
      match acc with
      | none => some p
      | some q =>
        if (p.date - t).natAbs < (q.date - t).natAbs then some p else acc)
    none).map (·.position)

/-- The eligible driver of the nearest-sample counterexample. -/
def cexDriver7 : Driver := ⟨1, "CEX", "Ce Ex", "TC", "#111111"⟩

/-- Four laps; lap 1 starts at t = 0. -/
def cexLaps7 : List Lap :=
  [⟨1, 1, some 90, none, none, none, 0, false⟩,
   ⟨1, 2, some 90, none, none, none, 200000, false⟩,
   ⟨1, 3, some 90, none, none, none, 400000, false⟩,
   ⟨1, 4, some 90, none, none, none, 600000, false⟩]

/-- Two samples inside the 60-second window of lap 1: the earlier one in
list order is 50 s away (position 5), the nearer one only 1 s away
(position 3). -/
def cexSamples7 : List Position := [⟨1, 5, 50000⟩, ⟨1, 3, 1000⟩]

/-- The nearest-sample counterexample input. -/
def exInput7 : ReplayInput := ⟨[cexDriver7], cexSamples7, cexLaps7, [], [], 0⟩

/-- C7 counterexample: the completion of lap 1 is attached position 5
(the first in-window sample in list order), while the sample nearest in
time within the 60-second window has position 3. -/
theorem completion_position_not_nearest :
    ∃ c ∈ allLapCompletions exInput7,
      c.lap_number = 1 ∧ c.position = 5 ∧
        nearestPositionSpec exInput7.positions c.driver_number c.timestamp =
          some 3 := by
  decide

/-- Witness: the first merged completion of the counterexample input
satisfies the first-in-window rule. -/
theorem completion_position_first_in_window_witness :
    ((allLapCompletions exInput7).getD 0 default).position =
      attachedPosition exInput7.positions exInput7.grid
        ((allLapCompletions exInput7).getD 0 default).driver_number
        ((allLapCompletions exInput7).getD 0 default).timestamp :=
  completion_position_first_in_window exInput7 _ (by with_unfolding_all decide)

/-! ## Theorems: driver eligibility (C8) -/

/-- The pass emits exactly one row per listed driver, in order. -/
theorem framePass_numbers (tl iv i : Nat) (ct : ℚ) (laps : List Lap) :
    ∀ (fds : List Driver) (st : Nat → DState),
      ((framePass tl iv i ct laps fds st).1).map (fun e => e.driver_number) =
        fds.map (fun d => d.driver_number)
  | [], _ => rfl
  | dr :: rest, st => by
    unfold framePass
    simp only [List.map_cons]
    rw [framePass_numbers tl iv i ct laps rest _]

/-- The per-frame pass, at its call site, emits one row per finishing
driver. -/
theorem framePassAt_numbers (inp : ReplayInput) (i : Nat)
    (st : Nat → DState) :
    ((framePassAt inp i st).1).map (fun e => e.driver_number) =
      (finishingDrivers inp.drivers inp.laps).map
        (fun d => d.driver_number) :=
  framePass_numbers _ _ _ _ _ _ _

/-- Row driver numbers of any frame are exactly the finishing drivers'
numbers, counted with multiplicity. -/
theorem frameLoop_countP (inp : ReplayInput) (x : Nat) :
    ∀ (n i : Nat) (st : Nat → DState), ∀ f ∈ frameLoop inp n i st,
      f.positions.countP (fun e => e.driver_number == x) =
        ((finishingDrivers inp.drivers inp.laps).map
          (fun d => d.driver_number)).count x
  | 0, _, _, f, hf => absurd hf (List.not_mem_nil f)
  | n + 1, i, st, f, hf => by
    rw [frameLoop_succ] at hf
    rcases List.mem_cons.mp hf with rfl | hrest
    · show ((stableSort (fun a b => (a.position ≤ b.position : Bool))
        (framePassAt inp i st).1).countP
          (fun e => e.driver_number == x)) = _
      rw [List.Perm.countP_eq _ (stableSort_perm _ _),
        show (fun e : Entry => e.driver_number == x) =
          ((fun n => n == x) ∘ fun e : Entry => e.driver_number) from rfl,
        ← List.countP_map, framePassAt_numbers, List.count_eq_countP]
    · exact frameLoop_countP inp x n (i + 1) (mkFrame inp i st).2 f hrest

/-- Row driver numbers always come from the finishing-driver list. -/
theorem frameLoop_mem_numbers (inp : ReplayInput) :
    ∀ (n i : Nat) (st : Nat → DState), ∀ f ∈ frameLoop inp n i st,
      ∀ e ∈ f.positions,
        e.driver_number ∈
          (finishingDrivers inp.drivers inp.laps).map
            (fun d => d.driver_number)
  | 0, _, _, f, hf, _, _ => absurd hf (List.not_mem_nil f)
  | n + 1, i, st, f, hf, e, he => by
    rw [frameLoop_succ] at hf
    rcases List.mem_cons.mp hf with rfl | hrest
    · have he' : e ∈ (framePassAt inp i st).1 := (mem_stableSort _ e _).mp he
      rw [← framePassAt_numbers inp i st]
      exact List.mem_map_of_mem _ he'
    · exact frameLoop_mem_numbers inp n (i + 1) (mkFrame inp i st).2 f
        hrest e he

/-- C8: provided driver numbers are unique in the session's driver list,
the frame list is nonempty, a driver with at most three lap records
appears in no frame, a driver with more than three lap records appears
exactly once in every frame, and every row of every frame belongs to a
finishing (more-than-three-lap) driver. -/
theorem eligibility_filter (inp : ReplayInput)
    (hnd : (inp.drivers.map (fun d => d.driver_number)).Nodup) :
    processRaceData inp ≠ [] ∧
    (∀ f ∈ processRaceData inp, ∀ e ∈ f.positions,
      ∃ dr ∈ finishingDrivers inp.drivers inp.laps,
        e.driver_number = dr.driver_number) ∧
    (∀ dr ∈ inp.drivers,
      ((inp.laps.filter (fun l =>
          l.driver_number == dr.driver_number)).length ≤ 3 →
        ∀ f ∈ processRaceData inp, ∀ e ∈ f.positions,
          e.driver_number ≠ dr.driver_number) ∧
      (3 < (inp.laps.filter (fun l =>
          l.driver_number == dr.driver_number)).length →
        ∀ f ∈ processRaceData inp,
          f.positions.countP
            (fun e => e.driver_number == dr.driver_number) = 1)) := by
  have hsub : ((finishingDrivers inp.drivers inp.laps).map
      (fun d => d.driver_number)).Sublist
        (inp.drivers.map (fun d => d.driver_number)) :=
    List.Sublist.map _ (List.filter_sublist _)
  have hnodup := hnd.sublist hsub
  refine ⟨?_, ?_, ?_⟩
  · intro hnil
    have := frameLoop_length inp (timeIntervals inp + 1) 0
      (initStates inp.grid (finishingDrivers inp.drivers inp.laps))
    rw [← processRaceData_eq, hnil] at this
    simp at this
  · intro f hf e he
    have := frameLoop_mem_numbers inp _ 0 _ f hf e he
    rw [List.mem_map] at this
    obtain ⟨dr, hdr, hnum⟩ := this
    exact ⟨dr, hdr, hnum.symm⟩
  · intro dr hdr
    constructor
    · intro hle f hf e he heq
      have hmem := frameLoop_mem_numbers inp _ 0 _ f hf e he
      rw [List.mem_map] at hmem
      obtain ⟨dr', hdr', hnum⟩ := hmem
      have hdr'mem : dr' ∈ inp.drivers :=
        List.mem_of_mem_filter hdr'
      have : dr' = dr :=
        List.inj_on_of_nodup_map hnd hdr'mem hdr (by rw [hnum, ← heq])
      subst this
      have := (List.mem_filter.mp hdr').2
      simp only [decide_eq_true_eq] at this
      omega
    · intro hgt f hf
      rw [frameLoop_countP inp dr.driver_number _ 0 _ f hf]
      exact List.count_eq_one_of_mem hnodup
        (List.mem_map_of_mem _
          (List.mem_filter.mpr ⟨hdr, by simpa using hgt⟩))

/-- Eligibility witness input: driver 1 has four lap records, driver 2
only three. -/
def exDriverA : Driver := ⟨1, "ELA", "El A", "TA", "#0000aa"⟩

/-- The second driver of the eligibility witness. -/
def exDriverB : Driver := ⟨2, "ELB", "El B", "TB", "#0000bb"⟩

/-- Laps: four for driver 1, three for driver 2. -/
def exLaps8 : List Lap :=
  [⟨1, 1, some 80, none, none, none, 0, false⟩,
   ⟨1, 2, some 80, none, none, none, 80000, false⟩,
   ⟨1, 3, some 80, none, none, none, 160000, false⟩,
   ⟨1, 4, some 80, none, none, none, 240000, false⟩,
   ⟨2, 1, some 85, none, none, none, 1000, false⟩,
   ⟨2, 2, some 85, none, none, none, 86000, false⟩,
   ⟨2, 3, some 85, none, none, none, 171000, false⟩]

/-- The eligibility witness input. -/
def exInput8 : ReplayInput :=
  ⟨[exDriverA, exDriverB], [], exLaps8, [], [], 0⟩

/-- Witness: in the first frame of the eligibility example, driver 1
(four laps) appears exactly once and the single row does not belong to
driver 2 (three laps). -/
theorem eligibility_filter_witness :
    (((processRaceData exInput8).getD 0 default).positions.countP
      (fun e => e.driver_number == 1)) = 1 ∧
    (((processRaceData exInput8).getD 0 default).positions.getD 0
      default).driver_number ≠ 2 :=
  ⟨((eligibility_filter exInput8 (by decide)).2.2 exDriverA
      (by decide)).2 (by decide) _ (by with_unfolding_all decide),
    ((eligibility_filter exInput8 (by decide)).2.2 exDriverB
      (by decide)).1 (by decide)
      ((processRaceData exInput8).getD 0 default)
      (by with_unfolding_all decide) _ (by with_unfolding_all decide)⟩
